import Mathlib

/-!
Shallow embedding of the code-emission core in `src/emit/instructions.rs`
(the instruction lowerer of the solang CFG-to-IR translator), together with
proofs about the lowering of the instructions covered by the specification.

Emitted IR values are represented symbolically by the inductive `Value`;
every builder action (block creation, φ-node creation, φ incoming
registration, insertion-point move, instruction emission) is recorded in an
`Event` trace so that both structural and temporal properties of the
emission can be stated.  Collaborator code that is not part of the
repository snapshot (the `Binary` context, `create_block`, the expression
lowerer, the sema type helpers, the runtime capability set) is modelled
from the specification; each such definition carries a doc comment saying
so.
-/

namespace Solang

/-- Modelled from the spec: the target tag is one of Substrate or Solana
(spec section 3); `Target` itself lives outside the snapshot. -/
inductive Target where
  | substrate
  | solana
deriving DecidableEq

/-- Modelled from the spec: `Target::is_substrate` holds exactly for the
Substrate target (spec section 4.5, selector endianness rule). -/
def Target.is_substrate : Target → Bool
  | .substrate => true
  | .solana => false

/-- Modelled from the spec: return codes are a small enum with Success plus
further codes, each with a reserved integer constant (spec section 3). -/
inductive ReturnCode where
  | success
  | other (n : Nat)
deriving DecidableEq

/-- Modelled from the spec: the reserved integer constant of each return
code; Success is 0 and distinct from every other code. -/
def retCodeInt : ReturnCode → Nat
  | .success => 0
  | .other n => n + 1

/-- Source-level types, as used by the instruction lowerer.  The `Type`
enum itself is in the missing sema module; the constructors here are the
ones the spec enumerates in section 4.1. -/
inductive Ty where
  | bool
  | uint (n : Nat)
  | int (n : Nat)
  | bytes (n : Nat)
  | address
  | string
  | dynamicBytes
  | array (elem : Ty) (fixed : Option Nat)
  | struct (no : Nat)
  | mapping
  | internalFunction (returns : List Ty)
  | externalFunction
  | ref (t : Ty)
  | storageRef (t : Ty)

/-- Modelled from the spec: `Type::is_reference_type` from the missing sema
module.  Reference types are the ones whose values are stored as pointers
(spec section 4.1): structs, arrays, dynamic bytes, strings, mappings and
explicit references.  Function types and scalars are not reference types;
in particular `ExternalFunction` is not (the separate
`matches!(v.ty, Type::ExternalFunction)` disjunct in the call arms of the
source would be dead code otherwise). -/
def Ty.is_reference_type : Ty → Bool
  | .struct _ => true
  | .array _ _ => true
  | .dynamicBytes => true
  | .string => true
  | .mapping => true
  | .ref _ => true
  | .storageRef _ => true
  | _ => false

/-- Modelled from the spec: fixed-reference types are structs and
fixed-size arrays (spec glossary). -/
def Ty.is_fixed_reference_type : Ty → Bool
  | .struct _ => true
  | .array _ (some _) => true
  | _ => false

/-- Whether the type is the external-function struct type, as tested by the
`matches!(v.ty, Type::ExternalFunction { .. })` check in the source. -/
def Ty.isExternalFunction : Ty → Bool
  | .externalFunction => true
  | _ => false

/-- Modelled from the spec: `Type::deref_any` from the missing sema module
strips one level of (storage) reference. -/
def Ty.deref_any : Ty → Ty
  | .ref t => t
  | .storageRef t => t
  | t => t

/-- Modelled from the spec: `Type::array_elem` from the missing sema
module; the element type of an array, with dynamic bytes and strings
behaving as arrays of single bytes (spec section 3, Vector).  Other types
never reach this function in well-formed CFGs. -/
def Ty.array_elem : Ty → Ty
  | .array e _ => e
  | .dynamicBytes => .bytes 1
  | .string => .bytes 1
  | t => t

/-- CFG expressions, restricted to the constructors the lowering of the
verified instructions inspects.  `Expression::Undefined` is matched on by
the `Set` arm; the others are opaque to the instruction lowerer. -/
inductive Expression where
  | undefined (ty : Ty)
  | var (ty : Ty) (no : Nat)
  | numberLiteral (ty : Ty) (n : Nat)

/-- The type carried by an expression (the `RetrieveType` trait). -/
def Expression.ty : Expression → Ty
  | .undefined t => t
  | .var t _ => t
  | .numberLiteral t _ => t

/-- Modelled from the spec: `Type::default` from the missing sema module —
"if `ty` has a default" (spec section 4.5, Set row).  Scalars default to a
zero literal; mappings, function types, references and aggregates are
modelled with no default. -/
def Ty.default : Ty → Option Expression
  | .bool => some (.numberLiteral .bool 0)
  | .uint n => some (.numberLiteral (.uint n) 0)
  | .int n => some (.numberLiteral (.int n) 0)
  | .bytes n => some (.numberLiteral (.bytes n) 0)
  | .address => some (.numberLiteral .address 0)
  | _ => none

/-- Symbolic IR values: one constructor per kind of SSA value the lowering
of the verified instructions produces. -/
inductive Value where
  | undef
  | nullPtr
  | intConst (n : Nat)
  | param (i : Nat)
  | alloca (id : Nat)
  | load (ptr : Value)
  | add (a b : Value)
  | sub (a b : Value)
  | mul (a b : Value)
  | zext (a : Value)
  | icmpEq (a b : Value)
  | icmpUgt (a b : Value)
  | ptrCast (a : Value)
  | gep (base : Value) (idxs : List Value)
  | callRealloc (ptr size : Value)
  | callInternal (cfg_no : Nat) (args : List Value)
  | callDyn (callee : Value) (args : List Value)
  | builtinRes (func_no : Nat) (args : List Value)
  | phi (block_no v : Nat)
  | sizeOfElem (t : Ty)
  | vectorStructSize
  | abiDecodeRes (data len : Value) (i : Nat)
  | abiEncodePtr (sel : Option Nat) (args : List Value)
  | abiEncodeLen (sel : Option Nat) (args : List Value)
  | createOutcome (contract_no : Nat)

/-- Modelled from the spec: the `return_values` table of the Binary context
maps each return code to its reserved IR integer constant (spec section
4.7). -/
def return_values (c : ReturnCode) : Value := .intConst (retCodeInt c)

/-- Whether the symbolic value is an LLVM pointer value
(`BasicValueEnum::is_pointer_value`). -/
def Value.isPointerValue : Value → Bool
  | .nullPtr | .alloca _ | .ptrCast _ | .gep _ _ | .callRealloc _ _ => true
  | _ => false

/-- Modelled from the spec: `u32::to_be` on the little-endian compilation
host byte-swaps a 32-bit word (spec section 4.5: EVM targets byte-swap the
selector to big-endian). -/
def bswap32 (n : Nat) : Nat :=
  n % 256 * 2 ^ 24 + n / 2 ^ 8 % 256 * 2 ^ 16 + n / 2 ^ 16 % 256 * 2 ^ 8 + n / 2 ^ 24 % 256

/-- Emitted IR instructions (the effects of builder calls that do not just
produce a value). -/
inductive IrIns where
  | store (ptr val : Value)
  | br (t : Nat)
  | condBr (cond : Value) (t f : Nat)
  | switchBr (cond : Value) (cases : List (Value × Nat)) (default : Nat)
  | ret (v : Value)
  | assertFail (ptr len : Value)
  | reallocCall (ptr size : Value)
  | internalCall (cfg_no : Nat) (args : List Value)
  | dynCall (callee : Value) (args : List Value)
  | builtinCallIns (func_no : Nat) (args : List Value)
  | createContractCall (contract_no : Nat) (address data len gas : Value)
      (value salt space : Option Value)
  | abiDecodeCall (data len : Value) (tys : List Ty)

/-- Builder actions, recorded in emission order. -/
inductive Event where
  | createBlock (block_no bbId : Nat)
  | createPhi (bbId v : Nat)
  | addIncoming (bbId v : Nat) (value : Value) (pred : Nat)
  | positionAt (bbId : Nat)
  | instr (bbId : Nat) (i : IrIns)

/-- The basic block an event belongs to. -/
def Event.bbId : Event → Nat
  | .createBlock _ b => b
  | .createPhi b _ => b
  | .addIncoming b _ _ _ => b
  | .positionAt b => b
  | .instr b _ => b

/-- Whether the event registers a φ incoming edge. -/
def Event.isIncoming : Event → Bool
  | .addIncoming _ _ _ _ => true
  | _ => false

/-- A variable of the per-work-item environment: its type and current IR
value (spec section 3). -/
structure Variable where
  ty : Ty
  value : Value

/-- The variable environment.  The emitter seeds the map with every CFG
variable before translation starts, so it is modelled as a total
function from variable numbers. -/
abbrev Env := Nat → Variable

/-- Rebind one variable (`w.vars.get_mut(v).unwrap().value = val`). -/
def updateVar (vars : Env) (v : Nat) (val : Value) : Env :=
  fun n => if n = v then { vars n with value := val } else vars n

/-- A work item: a block number together with the environment snapshot it
was enqueued with. -/
structure Work where
  block_no : Nat
  vars : Env

/-- A materialized block: its IR block id and the φ-node of every variable
that gets a φ at its head. -/
structure BasicBlock where
  bb : Nat
  phis : List (Nat × Value)

abbrev Blocks := List (Nat × BasicBlock)

/-- Association-list lookup for the `blocks` map. -/
def lookupBlock : Blocks → Nat → Option BasicBlock
  | [], _ => none
  | (k, b) :: rest, n => if k = n then some b else lookupBlock rest n

/-- A CFG block, reduced to the data block materialization needs: the
variables that receive a φ-node at its head. -/
structure CfgBlock where
  phiVars : List Nat

instance : Inhabited CfgBlock := ⟨⟨[]⟩⟩

structure ControlFlowGraph where
  params : List Ty
  blocks : List CfgBlock

/-- A callable function as the call arms see it: its return types. -/
structure FnDef where
  returns : List Ty

structure Contract where
  cfg : List FnDef

structure Namespace where
  target : Target
  functions : List FnDef

/-- Modelled from the spec: the Binary context, reduced to the field the
verified arms read — the optional ambient accounts parameter
(spec sections 4.7 and 6). -/
structure Binary where
  parameters : Option Value

/-- The IR builder state: current insertion block, a fresh-id counter for
blocks and allocas, and the trace of builder actions. -/
structure EmitState where
  insertBlock : Nat
  nextId : Nat
  events : List Event

/-- Emit one instruction at the current insertion block. -/
def emitIns (st : EmitState) (i : IrIns) : EmitState :=
  { st with events := st.events ++ [.instr st.insertBlock i] }

/-- `builder.position_at_end`. -/
def positionAtEnd (st : EmitState) (b : Nat) : EmitState :=
  { st with insertBlock := b, events := st.events ++ [.positionAt b] }

/-- `context.append_basic_block`: a fresh block id; the builder does not
move. -/
def appendBlock (st : EmitState) : Nat × EmitState :=
  (st.nextId, { st with nextId := st.nextId + 1 })

/-- A fresh stack slot (`build_alloca`; on Solana the entry-block allocator
is used instead, which only changes placement, not the produced value). -/
def buildAlloca (st : EmitState) : Value × EmitState :=
  (.alloca st.nextId, { st with nextId := st.nextId + 1 })

/-- Modelled from the spec: the expression lowerer — pure with respect to
control flow, consuming the current environment (spec section 4.2).  Only
the constructors the verified instruction arms can receive are
interpreted. -/
def expression (e : Expression) (vars : Env) : Value :=
  match e with
  | .undefined _ => .undef
  | .var _ n => (vars n).value
  | .numberLiteral _ n => .intConst n

/-- Modelled from the spec: `Binary::vector_len` loads the `len` field at
offset 0 of the vector header (spec section 3, Vector). -/
def vector_len (v : Value) : Value :=
  .load (.gep v [.intConst 0, .intConst 0])

/-- Modelled from the spec: `Binary::vector_bytes` is the address of the
`data` field at offset 2 of the vector header (spec section 3, Vector). -/
def vector_bytes (v : Value) : Value :=
  .ptrCast (.gep v [.intConst 0, .intConst 2])

/-- Modelled from the spec: `create_block` from `emit/cfg.rs` (not in the
snapshot) — appends a fresh IR block, moves the builder to it, and creates
one φ-node per CFG variable recorded for that block head
(spec section 4.3). -/
def create_block (block_no : Nat) (cfg : ControlFlowGraph) (st : EmitState) :
    BasicBlock × EmitState :=
  let (bbId, st) := appendBlock st
  let st := { st with events := st.events ++ [.createBlock block_no bbId] }
  let st := positionAtEnd st bbId
  let pv := (cfg.blocks.getD block_no default).phiVars
  let st := { st with events := st.events ++ pv.map fun v => .createPhi bbId v }
  ({ bb := bbId, phis := pv.map fun v => (v, Value.phi block_no v) }, st)

/-- `add_or_retrieve_block`: materialize the block on first encounter
(enqueueing a work item carrying a snapshot of the current environment),
then register one φ incoming `(current env value, pos)` per φ of the
block. -/
def add_or_retrieve_block (block_no pos : Nat) (blocks : Blocks) (work : List Work)
    (w : Work) (cfg : ControlFlowGraph) (st : EmitState) :
    Nat × Blocks × List Work × EmitState :=
  let (blk, blocks, work, st) : BasicBlock × Blocks × List Work × EmitState :=
    match lookupBlock blocks block_no with
    | some b => (b, blocks, work, st)
    | none =>
      let (b, st) := create_block block_no cfg st
      (b, blocks ++ [(block_no, b)], work ++ [Work.mk block_no w.vars], st)
  let st := { st with
    events := st.events ++ blk.phis.map fun p => .addIncoming blk.bb p.1 ((w.vars p.1).value) pos }
  (blk.bb, blocks, work, st)

/-- The out-pointer allocas appended to the parameter list, one per return
of the callee. -/
def allocRets (rets : List Ty) (parms : List Value) (st : EmitState) :
    List Value × EmitState :=
  match rets with
  | [] => (parms, st)
  | _ :: rest =>
    let (a, st) := buildAlloca st
    allocRets rest (parms ++ [a]) st

/-- The result-binding loop after a successful internal call: for return
`i`, load the out-pointer alloca; if the destination variable currently
holds a pointer and the return type is not a reference type (nor, when
`useExtExc` is set as in the Static and Builtin arms, an external function
type), store through that pointer; otherwise rebind the destination. -/
def bindReturns (rets : List Ty) (useExtExc : Bool) (parms : List Value)
    (argsLen i : Nat) (res : List Nat) (vars : Env) (st : EmitState) :
    Option (Env × EmitState) :=
  match rets with
  | [] => some (vars, st)
  | t :: rest => do
    let pv ← parms.get? (argsLen + i)
    let val := Value.load pv
    let r ← res.get? i
    let dest := (vars r).value
    if dest.isPointerValue && !(t.is_reference_type || (useExtExc && t.isExternalFunction)) then
      bindReturns rest useExtExc parms argsLen (i + 1) res vars (emitIns st (.store dest val))
    else
      bindReturns rest useExtExc parms argsLen (i + 1) res (updateVar vars r val) st

/-- Modelled from the spec: the values produced by the runtime capability
`abi_decode(tys)`, one per requested type (spec section 4.6). -/
def abiDecodeValues (data len : Value) (tys : List Ty) : List Value :=
  (List.range tys.length).map fun i => .abiDecodeRes data len i

/-- Binding the values produced by `abi_decode` to the result variables. -/
def bindDecodeResults (returns : List Value) (i : Nat) (res : List Nat) (vars : Env) :
    Option Env :=
  match returns with
  | [] => some vars
  | rv :: rest => do
    let r ← res.get? i
    bindDecodeResults rest (i + 1) res (updateVar vars r rv)

/-- The stores of each returned expression through its out-pointer
parameter (the `Return { vs }` loop). -/
def emitRetStores (vals : List Expression) (off : Nat) (vars : Env) (st : EmitState) :
    EmitState :=
  match vals with
  | [] => st
  | v :: rest =>
    let retval := expression v vars
    emitRetStores rest (off + 1) vars (emitIns st (.store (.param off) retval))

/-- Lowering of the case list of a `Switch`: each case expression is
lowered and its target block added or retrieved. -/
def lowerSwitchCases (cases : List (Expression × Nat)) (pos : Nat) (blocks : Blocks)
    (work : List Work) (w : Work) (cfg : ControlFlowGraph) (st : EmitState) :
    List (Value × Nat) × Blocks × List Work × EmitState :=
  match cases with
  | [] => ([], blocks, work, st)
  | (e, bno) :: rest =>
    let exp := expression e w.vars
    let (bb, blocks, work, st) := add_or_retrieve_block bno pos blocks work w cfg st
    let (tail, blocks, work, st) := lowerSwitchCases rest pos blocks work w cfg st
    ((exp, bb) :: tail, blocks, work, st)

/-- The internal call variants. -/
inductive InternalCallTy where
  | static (cfg_no : Nat)
  | builtin (ast_func_no : Nat)
  | dynamic (e : Expression)

/-- The CFG instructions whose lowering is verified here (the remaining
variants of the source `Instr` enum delegate directly to the runtime
capability set and are outside the claims). -/
inductive Instr where
  | nop
  | ret (value : List Expression)
  | set (res : Nat) (expr : Expression)
  | branch (block : Nat)
  | store (dest data : Expression)
  | branchCond (cond : Expression) (true_block false_block : Nat)
  | pushMemory (res : Nat) (ty : Ty) (array : Nat) (value : Expression)
  | popMemory (res : Nat) (ty : Ty) (array : Nat)
  | assertFailure (expr : Option Expression)
  | call (res : List Nat) (call : InternalCallTy) (args : List Expression)
  | constructor (success : Option Nat) (res : Nat) (contract_no : Nat)
      (encoded_args encoded_args_len : Expression) (value : Option Expression)
      (gas : Expression) (salt space : Option Expression)
  | abiDecode (res : List Nat) (selector : Option Nat) (exception_block : Option Nat)
      (tys : List Ty) (data : Expression) (data_len : Option Expression)
  | switch (cond : Expression) (cases : List (Expression × Nat)) (default : Nat)
  | unreachable

/-- The instruction lowerer: one arm per verified `Instr` variant,
following `process_instruction` in `src/emit/instructions.rs` line by
line.  Panicking indexing in the source becomes `Option`. -/
def process_instruction (ins : Instr) (bin : Binary) (w : Work) (ns : Namespace)
    (cfg : ControlFlowGraph) (work : List Work) (blocks : Blocks) (contract : Contract)
    (st : EmitState) : Option (Work × List Work × Blocks × EmitState) :=
  match ins with
  | .nop => some (w, work, blocks, st)
  | .ret [] =>
    some (w, work, blocks, emitIns st (.ret (return_values .success)))
  | .ret value =>
    let st := emitRetStores value cfg.params.length w.vars st
    some (w, work, blocks, emitIns st (.ret (return_values .success)))
  | .set res expr =>
    match expr with
    | .undefined expr_type =>
      match expr_type.default with
      | some default_expr =>
        some ({ w with vars := updateVar w.vars res (expression default_expr w.vars) },
          work, blocks, st)
      | none => some (w, work, blocks, st)
    | _ =>
      some ({ w with vars := updateVar w.vars res (expression expr w.vars) },
        work, blocks, st)
  | .branch dest =>
    let pos := st.insertBlock
    let (bb, blocks, work, st) := add_or_retrieve_block dest pos blocks work w cfg st
    let st := positionAtEnd st pos
    some (w, work, blocks, emitIns st (.br bb))
  | .store dest data =>
    let value_ref := expression data w.vars
    let dest_ref := expression dest w.vars
    some (w, work, blocks, emitIns st (.store dest_ref value_ref))
  | .branchCond cond true_ false_ =>
    let c := expression cond w.vars
    let pos := st.insertBlock
    let (bb_true, blocks, work, st) := add_or_retrieve_block true_ pos blocks work w cfg st
    let (bb_false, blocks, work, st) := add_or_retrieve_block false_ pos blocks work w cfg st
    let st := positionAtEnd st pos
    some (w, work, blocks, emitIns st (.condBr c bb_true bb_false))
  | .pushMemory res ty array value =>
    let arr := (w.vars array).value
    let elem_ty := ty.array_elem
    let elem_size := Value.sizeOfElem elem_ty
    let len := vector_len arr
    let new_len := Value.add len (.intConst 1)
    let vec_size := Value.vectorStructSize
    let size := Value.mul elem_size new_len
    let size := Value.add size vec_size
    let realloc_size := if ns.target = .solana then Value.zext size else size
    let new := Value.callRealloc (.ptrCast arr) realloc_size
    let st := emitIns st (.reallocCall (.ptrCast arr) realloc_size)
    let dest := Value.ptrCast new
    let vars := updateVar w.vars array dest
    let slot_ptr := Value.gep dest [.intConst 0, .intConst 2, .mul len elem_size]
    let value := expression value vars
    let elem_ptr := Value.ptrCast slot_ptr
    let (stored, vars) :=
      if elem_ty.is_fixed_reference_type then
        (Value.load value, updateVar vars res elem_ptr)
      else
        (value, updateVar vars res value)
    let st := emitIns st (.store elem_ptr stored)
    let len_field := Value.ptrCast (.gep dest [.intConst 0, .intConst 0])
    let st := emitIns st (.store len_field new_len)
    let size_field := Value.ptrCast (.gep dest [.intConst 0, .intConst 1])
    let st := emitIns st (.store size_field new_len)
    some ({ w with vars := vars }, work, blocks, st)
  | .popMemory res ty array =>
    let a := (w.vars array).value
    let len := Value.load (.gep a [.intConst 0, .intConst 0])
    let is_array_empty := Value.icmpEq len (.intConst 0)
    let (error, st) := appendBlock st
    let (pop, st) := appendBlock st
    let st := emitIns st (.condBr is_array_empty error pop)
    let st := positionAtEnd st error
    let st := emitIns st (.assertFail .nullPtr (.intConst 0))
    let st := positionAtEnd st pop
    let elem_ty := ty.array_elem
    let elem_size := Value.sizeOfElem elem_ty
    let new_len := Value.sub len (.intConst 1)
    let vec_size := Value.vectorStructSize
    let size := Value.add (.mul elem_size new_len) vec_size
    let slot_ptr := Value.ptrCast (.gep a [.intConst 0, .intConst 2, .mul new_len elem_size])
    let vars :=
      if elem_ty.is_fixed_reference_type then
        updateVar w.vars res slot_ptr
      else
        updateVar w.vars res (.load slot_ptr)
    let a2 := Value.ptrCast a
    let realloc_size := if ns.target = .solana then Value.zext size else size
    let new := Value.callRealloc a2 realloc_size
    let st := emitIns st (.reallocCall a2 realloc_size)
    let dest := Value.ptrCast new
    let vars := updateVar vars array dest
    let len_field := Value.ptrCast (.gep dest [.intConst 0, .intConst 0])
    let st := emitIns st (.store len_field new_len)
    let size_field := Value.ptrCast (.gep dest [.intConst 0, .intConst 1])
    let st := emitIns st (.store size_field new_len)
    some ({ w with vars := vars }, work, blocks, st)
  | .assertFailure none =>
    some (w, work, blocks, emitIns st (.assertFail .nullPtr (.intConst 0)))
  | .assertFailure (some expr) =>
    let v := expression expr w.vars
    let data := Value.abiEncodePtr (some 0x08c379a0) [v]
    let len := Value.abiEncodeLen (some 0x08c379a0) [v]
    some (w, work, blocks, emitIns st (.assertFail data len))
  | .call res (.static cfg_no) args => do
    let f ← contract.cfg.get? cfg_no
    let parms := args.map fun p => expression p w.vars
    let (parms, st) := if res.isEmpty then (parms, st) else allocRets f.returns parms st
    let parms := match bin.parameters with
      | some p => parms ++ [p]
      | none => parms
    let ret := Value.callInternal cfg_no parms
    let st := emitIns st (.internalCall cfg_no parms)
    let success := Value.icmpEq ret (return_values .success)
    let (success_block, st) := appendBlock st
    let (bail_block, st) := appendBlock st
    let st := emitIns st (.condBr success success_block bail_block)
    let st := positionAtEnd st bail_block
    let st := emitIns st (.ret ret)
    let st := positionAtEnd st success_block
    if res.isEmpty then
      some (w, work, blocks, st)
    else do
      let (vars, st) ← bindReturns f.returns true parms args.length 0 res w.vars st
      some ({ w with vars := vars }, work, blocks, st)
  | .call res (.builtin ast_func_no) args => do
    let parms := args.map fun p => expression p w.vars
    let callee ← ns.functions.get? ast_func_no
    let (parms, st) := if res.isEmpty then (parms, st) else allocRets callee.returns parms st
    let ret := Value.builtinRes ast_func_no parms
    let st := emitIns st (.builtinCallIns ast_func_no parms)
    let success := Value.icmpEq ret (return_values .success)
    let (success_block, st) := appendBlock st
    let (bail_block, st) := appendBlock st
    let st := emitIns st (.condBr success success_block bail_block)
    let st := positionAtEnd st bail_block
    let st := emitIns st (.ret ret)
    let st := positionAtEnd st success_block
    if res.isEmpty then
      some (w, work, blocks, st)
    else do
      let (vars, st) ← bindReturns callee.returns true parms args.length 0 res w.vars st
      some ({ w with vars := vars }, work, blocks, st)
  | .call res (.dynamic call_expr) args => do
    let ty := call_expr.ty
    let returns ← match ty.deref_any with
      | .internalFunction returns => some returns
      | _ => none
    let parms := args.map fun p => expression p w.vars
    let (parms, st) := if res.isEmpty then (parms, st) else allocRets returns parms st
    let parms := match bin.parameters with
      | some p => parms ++ [p]
      | none => parms
    let callable := expression call_expr w.vars
    let ret := Value.callDyn callable parms
    let st := emitIns st (.dynCall callable parms)
    let success := Value.icmpEq ret (return_values .success)
    let (success_block, st) := appendBlock st
    let (bail_block, st) := appendBlock st
    let st := emitIns st (.condBr success success_block bail_block)
    let st := positionAtEnd st bail_block
    let st := emitIns st (.ret ret)
    let st := positionAtEnd st success_block
    if res.isEmpty then
      some (w, work, blocks, st)
    else do
      let (vars, st) ← bindReturns returns false parms args.length 0 res w.vars st
      some ({ w with vars := vars }, work, blocks, st)
  | .constructor success res contract_no encoded_args encoded_args_len value gas salt space =>
    let ea := expression encoded_args w.vars
    let eal := expression encoded_args_len w.vars
    let (address, st) := buildAlloca st
    let gasv := expression gas w.vars
    let valuev := value.map fun v => expression v w.vars
    let saltv := salt.map fun v => expression v w.vars
    let spacev := space.map fun v => expression v w.vars
    let vars := match success with
      | some n => updateVar w.vars n (.createOutcome contract_no)
      | none => w.vars
    let st := emitIns st
      (.createContractCall contract_no (.ptrCast address) ea eal gasv valuev saltv spacev)
    let vars := updateVar vars res (.load address)
    some ({ w with vars := vars }, work, blocks, st)
  | .abiDecode res sel excOpt tys dataE data_lenE =>
    let v := expression dataE w.vars
    let data0 := if dataE.ty.is_reference_type then vector_bytes v else v
    let data_len0 := match data_lenE with
      | some len => expression len w.vars
      | none => vector_len v
    match sel with
    | some selector => do
      let exc ← excOpt
      let pos := st.insertBlock
      let work := work ++ [{ block_no := exc, vars := w.vars }]
      let (nb, st) := create_block exc cfg st
      let blocks := match lookupBlock blocks exc with
        | some _ => blocks
        | none => blocks ++ [(exc, nb)]
      let st := positionAtEnd st pos
      let exception_block ← lookupBlock blocks exc
      let has_selector := Value.icmpUgt data_len0 (.intConst 4)
      let (ok1, st) := appendBlock st
      let st := emitIns st (.condBr has_selector ok1 exception_block.bb)
      let st := positionAtEnd st ok1
      let selector_data := Value.load (.ptrCast data0)
      let selVal := if ns.target.is_substrate then selector else bswap32 selector
      let correct_selector := Value.icmpEq selector_data (.intConst selVal)
      let (ok2, st) := appendBlock st
      let st := emitIns st (.condBr correct_selector ok2 exception_block.bb)
      let st := positionAtEnd st ok2
      let data_len := Value.sub data_len0 (.intConst 4)
      let data := Value.gep (.ptrCast data0) [.intConst 4]
      let returns := abiDecodeValues data data_len tys
      let st := emitIns st (.abiDecodeCall data data_len tys)
      let vars ← bindDecodeResults returns 0 res w.vars
      some ({ w with vars := vars }, work, blocks, st)
    | none => do
      let returns := abiDecodeValues data0 data_len0 tys
      let st := emitIns st (.abiDecodeCall data0 data_len0 tys)
      let vars ← bindDecodeResults returns 0 res w.vars
      some ({ w with vars := vars }, work, blocks, st)
  | .switch cond cases default =>
    let pos := st.insertBlock
    let c := expression cond w.vars
    let (cs, blocks, work, st) := lowerSwitchCases cases pos blocks work w cfg st
    let (default_bb, blocks, work, st) := add_or_retrieve_block default pos blocks work w cfg st
    let st := positionAtEnd st pos
    some (w, work, blocks, emitIns st (.switchBr c cs default_bb))
  | .unreachable => some (w, work, blocks, st)

/-!  ## Observation helpers on emission traces  -/

/-- The instructions emitted into a given basic block, in order. -/
def blockIns (evs : List Event) (b : Nat) : List IrIns :=
  evs.filterMap fun e => match e with
    | .instr b2 i => if b2 = b then some i else none
    | _ => none

/-- Whether the event is a move of the insertion point to block `b`. -/
def Event.isPositionAt (b : Nat) : Event → Bool
  | .positionAt b2 => b2 = b
  | _ => false

/-- Index of the first event satisfying a predicate. -/
def firstIdx (p : Event → Bool) : List Event → Option Nat
  | [] => none
  | e :: es => if p e then some 0 else (firstIdx p es).map (· + 1)

/-- Partial evaluation of symbolic values over a 32-bit machine, given an
oracle `o` for the non-arithmetic leaves (loads, parameters, call
results). -/
def evalV (o : Value → Option Nat) : Value → Option Nat
  | .intConst n => some n
  | .add a b =>
    (evalV o a).bind fun x => (evalV o b).bind fun y => some ((x + y) % 2 ^ 32)
  | .sub a b =>
    (evalV o a).bind fun x => (evalV o b).bind fun y =>
      some ((x + (2 ^ 32 - y % 2 ^ 32)) % 2 ^ 32)
  | .mul a b =>
    (evalV o a).bind fun x => (evalV o b).bind fun y => some (x * y % 2 ^ 32)
  | .zext a => evalV o a
  | .icmpEq a b =>
    (evalV o a).bind fun x => (evalV o b).bind fun y => some (if x = y then 1 else 0)
  | .icmpUgt a b =>
    (evalV o a).bind fun x => (evalV o b).bind fun y => some (if y < x then 1 else 0)
  | v => o v

/-- The block a conditional branch transfers control to, under oracle `o`:
the true target on any non-zero condition. -/
def condBrTarget (o : Value → Option Nat) (cond : Value) (t f : Nat) : Option Nat :=
  (evalV o cond).bind fun c => some (if c ≠ 0 then t else f)

/-- `DerivedPtr old v` holds when the pointer `v` is reachable from the
pointer `old` by pointer casts and GEPs alone — i.e. `v` still aliases the
allocation `old` points into.  A `__realloc` result is a fresh pointer and
deliberately does not derive from its argument. -/
inductive DerivedPtr (old : Value) : Value → Prop where
  | refl : DerivedPtr old old
  | cast {v} : DerivedPtr old v → DerivedPtr old (.ptrCast v)
  | gep {v idxs} : DerivedPtr old v → DerivedPtr old (.gep v idxs)

/-- The root pointer of a cast/GEP chain. -/
def ptrRoot : Value → Value
  | .ptrCast a => ptrRoot a
  | .gep b _ => ptrRoot b
  | v => v

theorem ptrRoot_of_derived {old v : Value} (h : DerivedPtr old v) :
    ptrRoot v = ptrRoot old := by
  induction h with
  | refl => rfl
  | cast _ ih => simpa [ptrRoot]
  | gep _ ih => simpa [ptrRoot]

theorem sizeOf_ptrRoot_le : ∀ v : Value, sizeOf (ptrRoot v) ≤ sizeOf v
  | .ptrCast a => by
    have h := sizeOf_ptrRoot_le a
    simp only [ptrRoot, Value.ptrCast.sizeOf_spec]
    omega
  | .gep b idxs => by
    have h := sizeOf_ptrRoot_le b
    simp only [ptrRoot, Value.gep.sizeOf_spec]
    omega
  | .undef => Nat.le.refl
  | .nullPtr => Nat.le.refl
  | .intConst _ => Nat.le.refl
  | .param _ => Nat.le.refl
  | .alloca _ => Nat.le.refl
  | .load _ => Nat.le.refl
  | .add _ _ => Nat.le.refl
  | .sub _ _ => Nat.le.refl
  | .mul _ _ => Nat.le.refl
  | .zext _ => Nat.le.refl
  | .icmpEq _ _ => Nat.le.refl
  | .icmpUgt _ _ => Nat.le.refl
  | .callRealloc _ _ => Nat.le.refl
  | .callInternal _ _ => Nat.le.refl
  | .callDyn _ _ => Nat.le.refl
  | .builtinRes _ _ => Nat.le.refl
  | .phi _ _ => Nat.le.refl
  | .sizeOfElem _ => Nat.le.refl
  | .vectorStructSize => Nat.le.refl
  | .abiDecodeRes _ _ _ => Nat.le.refl
  | .abiEncodePtr _ _ => Nat.le.refl
  | .abiEncodeLen _ _ => Nat.le.refl
  | .createOutcome _ => Nat.le.refl

/-- Nothing cast/GEP-derived from a `__realloc ptr` result aliases the
pointer the realloc consumed. -/
theorem not_derived_of_realloc (old rsz : Value) (v : Value)
    (hroot : ptrRoot v = .callRealloc (.ptrCast old) rsz) : ¬ DerivedPtr old v := by
  intro h
  have h1 := ptrRoot_of_derived h
  have h2 := sizeOf_ptrRoot_le old
  rw [hroot] at h1
  have h3 := congrArg sizeOf h1
  simp only [Value.callRealloc.sizeOf_spec, Value.ptrCast.sizeOf_spec] at h3
  omega

/-- Well-formedness of the builder state: every recorded event talks about
an already-created block, and the insertion point is such a block. -/
def EmitState.Wf (st : EmitState) : Prop :=
  (∀ e ∈ st.events, e.bbId < st.nextId) ∧ st.insertBlock < st.nextId

theorem blockIns_append (evs1 evs2 : List Event) (b : Nat) :
    blockIns (evs1 ++ evs2) b = blockIns evs1 b ++ blockIns evs2 b :=
  List.filterMap_append ..

theorem blockIns_nil_of_lt (evs : List Event) (b : Nat)
    (h : ∀ e ∈ evs, e.bbId < b) : blockIns evs b = [] := by
  induction evs with
  | nil => rfl
  | cons e rest ih =>
    have he := h e (by simp)
    have hr := ih fun e he2 => h e (by simp [he2])
    cases e with
    | instr b2 i =>
      simp only [Event.bbId] at he
      simp [blockIns] at hr ⊢
      exact ⟨by omega, hr⟩
    | _ => simpa [blockIns] using hr

/-!  ## Concrete scenario used by witnesses and counterexamples  -/

/-- An environment holding `7 : u32` in every variable. -/
def exEnv : Env := fun _ => ⟨Ty.uint 32, Value.intConst 7⟩

def exW : Work := ⟨0, exEnv⟩

def exBin : Binary := ⟨none⟩

def exNs : Namespace := ⟨.substrate, [⟨[]⟩]⟩

/-- Two CFG blocks; block 1 has a φ for variable 0 at its head. -/
def exCfg : ControlFlowGraph := ⟨[], [⟨[]⟩, ⟨[0]⟩]⟩

def exContract : Contract := ⟨[⟨[]⟩]⟩

/-- Initial builder state: inserting into block 0, next fresh id 1. -/
def exSt : EmitState := ⟨0, 1, []⟩

/-!  ## C10 — Constructor result binding  -/

/-- **C10** (confirmed).  For every `Constructor` instruction, after the
runtime `create_contract` call the result variable is unconditionally
rebound to the value loaded from the stack-allocated address slot — also
when a `success` variable is present (which is bound to the runtime's
outcome), i.e. even when the creation may have failed. -/
theorem c10_constructor_res_rebound {bin : Binary} {w : Work} {ns : Namespace}
    {cfg : ControlFlowGraph} {work : List Work} {blocks : Blocks} {contract : Contract}
    {st : EmitState} {success : Option Nat} {res contract_no : Nat}
    {ea eal gas : Expression} {value salt space : Option Expression}
    {w' : Work} {work' : List Work} {blocks' : Blocks} {st' : EmitState}
    (h : process_instruction (.constructor success res contract_no ea eal value gas salt space)
        bin w ns cfg work blocks contract st = some (w', work', blocks', st')) :
    (w'.vars res).value = .load (.alloca st.nextId) ∧
    Event.instr st.insertBlock
        (.createContractCall contract_no (.ptrCast (.alloca st.nextId))
          (expression ea w.vars) (expression eal w.vars) (expression gas w.vars)
          (value.map fun v => expression v w.vars) (salt.map fun v => expression v w.vars)
          (space.map fun v => expression v w.vars)) ∈ st'.events ∧
    (∀ n, success = some n → n ≠ res → (w'.vars n).value = .createOutcome contract_no) := by
  simp only [process_instruction, buildAlloca, emitIns, Option.some.injEq, Prod.mk.injEq] at h
  obtain ⟨hw, hwork, hblocks, hst⟩ := h
  subst hw hwork hblocks hst
  refine ⟨by simp [updateVar], by simp, ?_⟩
  intro n hn hne
  subst hn
  simp [updateVar, hne]

def c10out : Work × List Work × Blocks × EmitState :=
  (process_instruction
      (.constructor (some 4) 3 0 (.numberLiteral (.uint 32) 1) (.numberLiteral (.uint 32) 2)
        none (.numberLiteral (.uint 32) 5) none none)
      exBin exW exNs exCfg [] [] exContract exSt).getD (exW, [], [], exSt)

/-- Witness for C10 at a concrete `Constructor` with a `success`
variable. -/
theorem c10_constructor_res_rebound_witness :
    (c10out.1.vars 3).value = .load (.alloca 1) ∧
    Event.instr 0
        (.createContractCall 0 (.ptrCast (.alloca 1)) (.intConst 1) (.intConst 2) (.intConst 5)
          none none none) ∈ c10out.2.2.2.events ∧
    (∀ n, (some 4 : Option Nat) = some n → n ≠ 3 →
      (c10out.1.vars n).value = .createOutcome 0) :=
  c10_constructor_res_rebound
    (show process_instruction
        (.constructor (some 4) 3 0 (.numberLiteral (.uint 32) 1) (.numberLiteral (.uint 32) 2)
          none (.numberLiteral (.uint 32) 5) none none)
        exBin exW exNs exCfg [] [] exContract exSt
        = some (c10out.1, c10out.2.1, c10out.2.2.1, c10out.2.2.2) from by rfl)

/-!  ## C5 — Set with Undefined expressions  -/

/-- **C5** (amended).  For `Set { res, expr }`: if `expr` is
`Undefined(ty)` and `ty` has a default, the variable is bound to the
lowered default; if `expr` is `Undefined(ty)` and `ty` has no default the
variable is left *unchanged* (the claim said it is bound to the lowered
`Undefined`); otherwise the variable is bound to the lowered `expr`. -/
theorem c5_set_binding {bin : Binary} {w : Work} {ns : Namespace} {cfg : ControlFlowGraph}
    {work : List Work} {blocks : Blocks} {contract : Contract} {st : EmitState}
    {res : Nat} {e : Expression} {w' : Work} {work' : List Work} {blocks' : Blocks}
    {st' : EmitState}
    (h : process_instruction (.set res e) bin w ns cfg work blocks contract st
        = some (w', work', blocks', st')) :
    (∀ ty d, e = .undefined ty → ty.default = some d →
      w'.vars = updateVar w.vars res (expression d w.vars)) ∧
    (∀ ty, e = .undefined ty → ty.default = none → w'.vars = w.vars) ∧
    ((∀ ty, e ≠ .undefined ty) → w'.vars = updateVar w.vars res (expression e w.vars)) ∧
    work' = work ∧ blocks' = blocks ∧ st' = st := by
  cases e with
  | undefined ty =>
    cases hd : ty.default with
    | some d =>
      simp only [process_instruction, hd, Option.some.injEq, Prod.mk.injEq] at h
      obtain ⟨hw, hwork, hblocks, hst⟩ := h
      subst hwork hblocks hst
      refine ⟨?_, ?_, ?_, rfl, rfl, rfl⟩
      · intro ty2 d2 he hd2
        obtain rfl : ty = ty2 := by cases he; rfl
        rw [hd] at hd2
        obtain rfl : d = d2 := by cases hd2; rfl
        rw [← hw]
      · intro ty2 he hnone
        obtain rfl : ty = ty2 := by cases he; rfl
        rw [hd] at hnone
        cases hnone
      · intro hne
        exact absurd rfl (hne ty)
    | none =>
      simp only [process_instruction, hd, Option.some.injEq, Prod.mk.injEq] at h
      obtain ⟨hw, hwork, hblocks, hst⟩ := h
      subst hwork hblocks hst
      refine ⟨?_, ?_, ?_, rfl, rfl, rfl⟩
      · intro ty2 d2 he hd2
        obtain rfl : ty = ty2 := by cases he; rfl
        rw [hd] at hd2
        cases hd2
      · intro ty2 he hnone
        rw [← hw]
      · intro hne
        exact absurd rfl (hne ty)
  | var ty no =>
    simp only [process_instruction, Option.some.injEq, Prod.mk.injEq] at h
    obtain ⟨hw, hwork, hblocks, hst⟩ := h
    subst hwork hblocks hst
    refine ⟨?_, ?_, ?_, rfl, rfl, rfl⟩
    · intro ty2 d2 he
      cases he
    · intro ty2 he
      cases he
    · intro hne
      rw [← hw]
  | numberLiteral ty n =>
    simp only [process_instruction, Option.some.injEq, Prod.mk.injEq] at h
    obtain ⟨hw, hwork, hblocks, hst⟩ := h
    subst hwork hblocks hst
    refine ⟨?_, ?_, ?_, rfl, rfl, rfl⟩
    · intro ty2 d2 he
      cases he
    · intro ty2 he
      cases he
    · intro hne
      rw [← hw]

/-- **C5** counterexample.  At `Set { v := 3, e := Undefined(mapping) }`
(a type with no default) in an environment where variable 3 holds the
constant 7, the lowering leaves variable 3 bound to 7, whereas the claim
demands it be bound to the lowered `Undefined` value (`undef`), which 7 is
not. -/
theorem c5_counterexample :
    (process_instruction (.set 3 (.undefined .mapping)) exBin exW exNs exCfg [] [] exContract
        exSt = some (exW, [], [], exSt)) ∧
    (exW.vars 3).value = .intConst 7 ∧
    expression (.undefined .mapping) exW.vars = .undef ∧
    Value.intConst 7 ≠ Value.undef :=
  ⟨rfl, rfl, rfl, fun hcontra => Value.noConfusion hcontra⟩

def c5out : Work × List Work × Blocks × EmitState :=
  (process_instruction (.set 2 (.numberLiteral (.uint 32) 9)) exBin exW exNs exCfg [] []
    exContract exSt).getD (exW, [], [], exSt)

/-- Witness for the amended C5 at a concrete `Set` of a number literal. -/
theorem c5_set_binding_witness :
    (∀ ty d, Expression.numberLiteral (.uint 32) 9 = .undefined ty → ty.default = some d →
      c5out.1.vars = updateVar exW.vars 2 (expression d exW.vars)) ∧
    (∀ ty, Expression.numberLiteral (.uint 32) 9 = .undefined ty → ty.default = none →
      c5out.1.vars = exW.vars) ∧
    ((∀ ty, Expression.numberLiteral (.uint 32) 9 ≠ .undefined ty) →
      c5out.1.vars = updateVar exW.vars 2
        (expression (.numberLiteral (.uint 32) 9) exW.vars)) ∧
    c5out.2.1 = ([] : List Work) ∧ c5out.2.2.1 = ([] : Blocks) ∧ c5out.2.2.2 = exSt :=
  c5_set_binding
    (show process_instruction (.set 2 (.numberLiteral (.uint 32) 9)) exBin exW exNs exCfg [] []
        exContract exSt = some (c5out.1, c5out.2.1, c5out.2.2.1, c5out.2.2.2) from by rfl)

/-!  ## C9 — PopMemory checks for the empty vector first  -/

/-- **C9** (confirmed).  The lowering of `PopMemory` first emits, at the
branch-site block, a conditional branch on `len == 0`; the error block
contains exactly the runtime `assert_failure(null, 0)`, and the branch
reaches the pop path only when the length is non-zero. -/
theorem c9_pop_empty_assert {bin : Binary} {w : Work} {ns : Namespace}
    {cfg : ControlFlowGraph} {work : List Work} {blocks : Blocks} {contract : Contract}
    {st : EmitState} {res : Nat} {ty : Ty} {array : Nat}
    {w' : Work} {work' : List Work} {blocks' : Blocks} {st' : EmitState}
    (hwf : st.Wf)
    (h : process_instruction (.popMemory res ty array) bin w ns cfg work blocks contract st
        = some (w', work', blocks', st')) :
    ∃ tail,
      st'.events = st.events ++ Event.instr st.insertBlock
          (.condBr (.icmpEq (.load (.gep (w.vars array).value [.intConst 0, .intConst 0]))
            (.intConst 0)) st.nextId (st.nextId + 1)) :: tail ∧
      blockIns st'.events st.nextId = [.assertFail .nullPtr (.intConst 0)] ∧
      (∀ o n, evalV o (.load (.gep (w.vars array).value [.intConst 0, .intConst 0])) = some n →
        condBrTarget o
          (.icmpEq (.load (.gep (w.vars array).value [.intConst 0, .intConst 0])) (.intConst 0))
          st.nextId (st.nextId + 1)
          = some (if n = 0 then st.nextId else st.nextId + 1)) := by
  simp only [process_instruction, emitIns, positionAtEnd, appendBlock, Option.some.injEq,
    Prod.mk.injEq] at h
  obtain ⟨hw, hwork, hblocks, hst⟩ := h
  subst hw hwork hblocks hst
  refine ⟨_, by simp only [List.append_assoc, List.singleton_append]; rfl, ?_, ?_⟩
  · have h0 : blockIns st.events st.nextId = [] :=
      blockIns_nil_of_lt _ _ fun e he => hwf.1 e he
    have hne1 : st.insertBlock ≠ st.nextId := Nat.ne_of_lt hwf.2
    have hne2 : st.nextId + 1 ≠ st.nextId := by omega
    simp only [blockIns_append, h0, List.nil_append]
    simp [blockIns, hne1, hne2]
  · intro o n hn
    have h1 : evalV o
        (.icmpEq (.load (.gep (w.vars array).value [.intConst 0, .intConst 0])) (.intConst 0))
        = (evalV o (.load (.gep (w.vars array).value [.intConst 0, .intConst 0]))).bind
            fun x => some (if x = 0 then 1 else 0) := rfl
    have h2 : condBrTarget o
        (.icmpEq (.load (.gep (w.vars array).value [.intConst 0, .intConst 0])) (.intConst 0))
        st.nextId (st.nextId + 1)
        = some (if (if n = 0 then 1 else 0) ≠ 0 then st.nextId else st.nextId + 1) := by
      unfold condBrTarget
      rw [h1, hn]
      rfl
    rw [h2]
    by_cases hn0 : n = 0 <;> simp [hn0]

def c9out : Work × List Work × Blocks × EmitState :=
  (process_instruction (.popMemory 2 (.array (.uint 32) none) 1) exBin exW exNs exCfg [] []
    exContract exSt).getD (exW, [], [], exSt)

/-- Witness for C9 at a concrete `PopMemory` on a `u32[]` variable. -/
theorem c9_pop_empty_assert_witness :
    ∃ tail,
      c9out.2.2.2.events = [] ++ Event.instr 0
          (.condBr (.icmpEq (.load (.gep (.intConst 7) [.intConst 0, .intConst 0]))
            (.intConst 0)) 1 2) :: tail ∧
      blockIns c9out.2.2.2.events 1 = [.assertFail .nullPtr (.intConst 0)] ∧
      (∀ o n, evalV o (.load (.gep (.intConst 7) [.intConst 0, .intConst 0])) = some n →
        condBrTarget o
          (.icmpEq (.load (.gep (.intConst 7) [.intConst 0, .intConst 0])) (.intConst 0)) 1 2
          = some (if n = 0 then 1 else 2)) :=
  c9_pop_empty_assert ⟨fun e he => absurd he (by simp [exSt]), by simp [exSt]⟩
    (show process_instruction (.popMemory 2 (.array (.uint 32) none) 1) exBin exW exNs exCfg
        [] [] exContract exSt = some (c9out.1, c9out.2.1, c9out.2.2.1, c9out.2.2.2) from by rfl)

/-!  ## C2 — Vector header consistency after PushMemory / PopMemory  -/

/-- The realloc size computed by the `PushMemory` arm (widened to 64 bits
on Solana). -/
def pushReallocSize (ns : Namespace) (arr : Value) (elem : Ty) : Value :=
  if ns.target = Target.solana then
    .zext (.add (.mul (.sizeOfElem elem) (.add (vector_len arr) (.intConst 1)))
      .vectorStructSize)
  else
    .add (.mul (.sizeOfElem elem) (.add (vector_len arr) (.intConst 1))) .vectorStructSize

/-- The realloc size computed by the `PopMemory` arm. -/
def popReallocSize (ns : Namespace) (arr : Value) (elem : Ty) : Value :=
  if ns.target = Target.solana then
    .zext (.add (.mul (.sizeOfElem elem)
      (.sub (.load (.gep arr [.intConst 0, .intConst 0])) (.intConst 1))) .vectorStructSize)
  else
    .add (.mul (.sizeOfElem elem)
      (.sub (.load (.gep arr [.intConst 0, .intConst 0])) (.intConst 1))) .vectorStructSize

theorem c2push_lemma {bin : Binary} {w : Work} {ns : Namespace}
    {cfg : ControlFlowGraph} {work : List Work} {blocks : Blocks} {contract : Contract}
    {st : EmitState} {res : Nat} {ty : Ty} {array : Nat} {value : Expression}
    {w' : Work} {work' : List Work} {blocks' : Blocks} {st' : EmitState}
    (hne : res ≠ array)
    (h : process_instruction (.pushMemory res ty array value) bin w ns cfg work blocks contract
        st = some (w', work', blocks', st')) :
    ∃ rsz,
      (w'.vars array).value = .ptrCast (.callRealloc (.ptrCast (w.vars array).value) rsz) ∧
      ¬ DerivedPtr (w.vars array).value (w'.vars array).value ∧
      Event.instr st.insertBlock
          (.store (.ptrCast (.gep (w'.vars array).value [.intConst 0, .intConst 0]))
            (.add (vector_len (w.vars array).value) (.intConst 1))) ∈ st'.events ∧
      Event.instr st.insertBlock
          (.store (.ptrCast (.gep (w'.vars array).value [.intConst 0, .intConst 1]))
            (.add (vector_len (w.vars array).value) (.intConst 1))) ∈ st'.events ∧
      (ty.array_elem.is_fixed_reference_type = true →
        (w'.vars res).value = .ptrCast (.gep (w'.vars array).value
          [.intConst 0, .intConst 2,
            .mul (vector_len (w.vars array).value) (.sizeOfElem ty.array_elem)]) ∧
        ¬ DerivedPtr (w.vars array).value (w'.vars res).value) := by
  simp only [process_instruction, emitIns, Option.some.injEq, Prod.mk.injEq] at h
  cases hfix : ty.array_elem.is_fixed_reference_type with
  | false =>
    rw [hfix] at h
    simp only [Bool.false_eq_true, ite_false] at h
    obtain ⟨hw, hwork, hblocks, hst⟩ := h
    subst hw hwork hblocks hst
    refine ⟨pushReallocSize ns (w.vars array).value ty.array_elem,
      by simp [pushReallocSize, updateVar, hne, Ne.symm hne], ?_,
      by simp [pushReallocSize, updateVar, hne, Ne.symm hne],
      by simp [pushReallocSize, updateVar, hne, Ne.symm hne], ?_⟩
    · exact not_derived_of_realloc _
        (pushReallocSize ns (w.vars array).value ty.array_elem) _
        (by simp [pushReallocSize, updateVar, hne, Ne.symm hne, ptrRoot])
    · intro hfix2
      exact absurd hfix2 (by simp)
  | true =>
    rw [hfix] at h
    simp only [ite_true] at h
    obtain ⟨hw, hwork, hblocks, hst⟩ := h
    subst hw hwork hblocks hst
    refine ⟨pushReallocSize ns (w.vars array).value ty.array_elem,
      by simp [pushReallocSize, updateVar, hne, Ne.symm hne], ?_,
      by simp [pushReallocSize, updateVar, hne, Ne.symm hne],
      by simp [pushReallocSize, updateVar, hne, Ne.symm hne], ?_⟩
    · exact not_derived_of_realloc _
        (pushReallocSize ns (w.vars array).value ty.array_elem) _
        (by simp [pushReallocSize, updateVar, hne, Ne.symm hne, ptrRoot])
    · intro hfix2
      exact ⟨by simp [pushReallocSize, updateVar, hne, Ne.symm hne],
        not_derived_of_realloc _
          (pushReallocSize ns (w.vars array).value ty.array_elem) _
          (by simp [pushReallocSize, updateVar, hne, Ne.symm hne, ptrRoot])⟩

theorem c2pop_lemma {bin : Binary} {w : Work} {ns : Namespace}
    {cfg : ControlFlowGraph} {work : List Work} {blocks : Blocks} {contract : Contract}
    {st : EmitState} {res : Nat} {ty : Ty} {array : Nat}
    {w' : Work} {work' : List Work} {blocks' : Blocks} {st' : EmitState}
    (hne : res ≠ array)
    (h : process_instruction (.popMemory res ty array) bin w ns cfg work blocks contract st
        = some (w', work', blocks', st')) :
    ∃ rsz,
      (w'.vars array).value = .ptrCast (.callRealloc (.ptrCast (w.vars array).value) rsz) ∧
      Event.instr (st.nextId + 1)
          (.store (.ptrCast (.gep (w'.vars array).value [.intConst 0, .intConst 0]))
            (.sub (.load (.gep (w.vars array).value [.intConst 0, .intConst 0]))
              (.intConst 1))) ∈ st'.events ∧
      Event.instr (st.nextId + 1)
          (.store (.ptrCast (.gep (w'.vars array).value [.intConst 0, .intConst 1]))
            (.sub (.load (.gep (w.vars array).value [.intConst 0, .intConst 0]))
              (.intConst 1))) ∈ st'.events ∧
      (ty.array_elem.is_fixed_reference_type = true →
        (w'.vars res).value = .ptrCast (.gep (w.vars array).value
          [.intConst 0, .intConst 2,
            .mul (.sub (.load (.gep (w.vars array).value [.intConst 0, .intConst 0]))
              (.intConst 1)) (.sizeOfElem ty.array_elem)]) ∧
        DerivedPtr (w.vars array).value (w'.vars res).value) := by
  simp only [process_instruction, emitIns, positionAtEnd, appendBlock, Option.some.injEq,
    Prod.mk.injEq] at h
  cases hfix : ty.array_elem.is_fixed_reference_type with
  | false =>
    rw [hfix] at h
    simp only [Bool.false_eq_true, ite_false] at h
    obtain ⟨hw, hwork, hblocks, hst⟩ := h
    subst hw hwork hblocks hst
    refine ⟨popReallocSize ns (w.vars array).value ty.array_elem,
      by simp [popReallocSize, updateVar, hne, Ne.symm hne],
      by simp [popReallocSize, updateVar, hne, Ne.symm hne],
      by simp [popReallocSize, updateVar, hne, Ne.symm hne], ?_⟩
    intro hfix2
    exact absurd hfix2 (by simp)
  | true =>
    rw [hfix] at h
    simp only [ite_true] at h
    obtain ⟨hw, hwork, hblocks, hst⟩ := h
    subst hw hwork hblocks hst
    refine ⟨popReallocSize ns (w.vars array).value ty.array_elem,
      by simp [popReallocSize, updateVar, hne, Ne.symm hne],
      by simp [popReallocSize, updateVar, hne, Ne.symm hne],
      by simp [popReallocSize, updateVar, hne, Ne.symm hne], ?_⟩
    intro hfix2
    refine ⟨by simp [updateVar, hne, Ne.symm hne], ?_⟩
    simp only [updateVar, hne, Ne.symm hne, ite_true, ite_false, if_neg, if_pos]
    exact DerivedPtr.cast (DerivedPtr.gep DerivedPtr.refl)

/-- **C2** (amended).  After `PushMemory` the header's `len` and `cap`
fields of the realloc result are both stored the new logical length, the
array variable is rebound to the realloc result, and neither the array
binding nor the result derives from the pre-realloc pointer.  After
`PopMemory` the header stores and the array rebinding hold likewise, but
the result bound for a fixed-reference element type *is* a pointer derived
from the pre-realloc pointer (it is computed before the realloc; the claim
said no such value remains observable). -/
theorem c2_vector_header :
    (∀ {bin : Binary} {w : Work} {ns : Namespace} {cfg : ControlFlowGraph}
      {work : List Work} {blocks : Blocks} {contract : Contract} {st : EmitState}
      {res : Nat} {ty : Ty} {array : Nat} {value : Expression}
      {w' : Work} {work' : List Work} {blocks' : Blocks} {st' : EmitState},
      res ≠ array →
      process_instruction (.pushMemory res ty array value) bin w ns cfg work blocks contract st
        = some (w', work', blocks', st') →
      ∃ rsz,
        (w'.vars array).value = .ptrCast (.callRealloc (.ptrCast (w.vars array).value) rsz) ∧
        ¬ DerivedPtr (w.vars array).value (w'.vars array).value ∧
        Event.instr st.insertBlock
            (.store (.ptrCast (.gep (w'.vars array).value [.intConst 0, .intConst 0]))
              (.add (vector_len (w.vars array).value) (.intConst 1))) ∈ st'.events ∧
        Event.instr st.insertBlock
            (.store (.ptrCast (.gep (w'.vars array).value [.intConst 0, .intConst 1]))
              (.add (vector_len (w.vars array).value) (.intConst 1))) ∈ st'.events ∧
        (ty.array_elem.is_fixed_reference_type = true →
          (w'.vars res).value = .ptrCast (.gep (w'.vars array).value
            [.intConst 0, .intConst 2,
              .mul (vector_len (w.vars array).value) (.sizeOfElem ty.array_elem)]) ∧
          ¬ DerivedPtr (w.vars array).value (w'.vars res).value)) ∧
    (∀ {bin : Binary} {w : Work} {ns : Namespace} {cfg : ControlFlowGraph}
      {work : List Work} {blocks : Blocks} {contract : Contract} {st : EmitState}
      {res : Nat} {ty : Ty} {array : Nat}
      {w' : Work} {work' : List Work} {blocks' : Blocks} {st' : EmitState},
      res ≠ array →
      process_instruction (.popMemory res ty array) bin w ns cfg work blocks contract st
        = some (w', work', blocks', st') →
      ∃ rsz,
        (w'.vars array).value = .ptrCast (.callRealloc (.ptrCast (w.vars array).value) rsz) ∧
        Event.instr (st.nextId + 1)
            (.store (.ptrCast (.gep (w'.vars array).value [.intConst 0, .intConst 0]))
              (.sub (.load (.gep (w.vars array).value [.intConst 0, .intConst 0]))
                (.intConst 1))) ∈ st'.events ∧
        Event.instr (st.nextId + 1)
            (.store (.ptrCast (.gep (w'.vars array).value [.intConst 0, .intConst 1]))
              (.sub (.load (.gep (w.vars array).value [.intConst 0, .intConst 0]))
                (.intConst 1))) ∈ st'.events ∧
        (ty.array_elem.is_fixed_reference_type = true →
          (w'.vars res).value = .ptrCast (.gep (w.vars array).value
            [.intConst 0, .intConst 2,
              .mul (.sub (.load (.gep (w.vars array).value [.intConst 0, .intConst 0]))
                (.intConst 1)) (.sizeOfElem ty.array_elem)]) ∧
          DerivedPtr (w.vars array).value (w'.vars res).value)) :=
  ⟨fun hne h => c2push_lemma hne h, fun hne h => c2pop_lemma hne h⟩

/-- Environment for the C2 counterexample: variable 1 holds a struct-array
vector pointer `param 0`. -/
def c2env : Env :=
  fun n => if n = 1 then ⟨.array (.struct 0) (some 2), .param 0⟩ else ⟨Ty.uint 32, .intConst 7⟩

def c2out : Work × List Work × Blocks × EmitState :=
  (process_instruction (.popMemory 2 (.array (.struct 0) (some 2)) 1) exBin ⟨0, c2env⟩ exNs
    exCfg [] [] exContract exSt).getD (exW, [], [], exSt)

/-- **C2** counterexample.  Popping from a vector of a fixed-reference
element type binds the result to a pointer cast/GEP-derived from the
pre-realloc pointer `param 0`, and the array is then rebound to a realloc
of that same old pointer — so a value derived from the pre-realloc pointer
remains observable after the instruction, contradicting the claim. -/
theorem c2_counterexample :
    (c2out.1.vars 2).value = .ptrCast (.gep (.param 0)
      [.intConst 0, .intConst 2,
        .mul (.sub (.load (.gep (.param 0) [.intConst 0, .intConst 0])) (.intConst 1))
          (.sizeOfElem (.struct 0))]) ∧
    DerivedPtr (.param 0) (c2out.1.vars 2).value ∧
    (c2out.1.vars 1).value = .ptrCast (.callRealloc (.ptrCast (.param 0))
      (.add (.mul (.sizeOfElem (.struct 0))
        (.sub (.load (.gep (.param 0) [.intConst 0, .intConst 0])) (.intConst 1)))
        .vectorStructSize)) :=
  ⟨rfl, DerivedPtr.cast (DerivedPtr.gep DerivedPtr.refl), rfl⟩

def c2aout : Work × List Work × Blocks × EmitState :=
  (process_instruction (.pushMemory 2 (.array (.uint 32) none) 1 (.numberLiteral (.uint 32) 9))
    exBin ⟨0, c2env⟩ exNs exCfg [] [] exContract exSt).getD (exW, [], [], exSt)

/-- Witness for the amended C2 at a concrete `PushMemory` and a concrete
`PopMemory`. -/
theorem c2_vector_header_witness :
    (∃ rsz,
      (c2aout.1.vars 1).value = .ptrCast (.callRealloc (.ptrCast (.param 0)) rsz) ∧
      ¬ DerivedPtr (.param 0) (c2aout.1.vars 1).value ∧
      Event.instr 0
          (.store (.ptrCast (.gep (c2aout.1.vars 1).value [.intConst 0, .intConst 0]))
            (.add (vector_len (.param 0)) (.intConst 1))) ∈ c2aout.2.2.2.events ∧
      Event.instr 0
          (.store (.ptrCast (.gep (c2aout.1.vars 1).value [.intConst 0, .intConst 1]))
            (.add (vector_len (.param 0)) (.intConst 1))) ∈ c2aout.2.2.2.events ∧
      ((Ty.array (.uint 32) none).array_elem.is_fixed_reference_type = true →
        (c2aout.1.vars 2).value = .ptrCast (.gep (c2aout.1.vars 1).value
          [.intConst 0, .intConst 2,
            .mul (vector_len (.param 0)) (.sizeOfElem (Ty.array (.uint 32) none).array_elem)]) ∧
        ¬ DerivedPtr (.param 0) (c2aout.1.vars 2).value)) ∧
    (∃ rsz,
      (c2out.1.vars 1).value = .ptrCast (.callRealloc (.ptrCast (.param 0)) rsz) ∧
      Event.instr 2
          (.store (.ptrCast (.gep (c2out.1.vars 1).value [.intConst 0, .intConst 0]))
            (.sub (.load (.gep (.param 0) [.intConst 0, .intConst 0])) (.intConst 1)))
          ∈ c2out.2.2.2.events ∧
      Event.instr 2
          (.store (.ptrCast (.gep (c2out.1.vars 1).value [.intConst 0, .intConst 1]))
            (.sub (.load (.gep (.param 0) [.intConst 0, .intConst 0])) (.intConst 1)))
          ∈ c2out.2.2.2.events ∧
      ((Ty.array (.struct 0) (some 2)).array_elem.is_fixed_reference_type = true →
        (c2out.1.vars 2).value = .ptrCast (.gep (.param 0)
          [.intConst 0, .intConst 2,
            .mul (.sub (.load (.gep (.param 0) [.intConst 0, .intConst 0])) (.intConst 1))
              (.sizeOfElem (Ty.array (.struct 0) (some 2)).array_elem)]) ∧
        DerivedPtr (.param 0) (c2out.1.vars 2).value)) :=
  ⟨c2_vector_header.1 (by omega)
    (show process_instruction
        (.pushMemory 2 (.array (.uint 32) none) 1 (.numberLiteral (.uint 32) 9)) exBin
        ⟨0, c2env⟩ exNs exCfg [] [] exContract exSt
        = some (c2aout.1, c2aout.2.1, c2aout.2.2.1, c2aout.2.2.2) from by rfl),
   c2_vector_header.2 (by omega)
    (show process_instruction (.popMemory 2 (.array (.struct 0) (some 2)) 1) exBin ⟨0, c2env⟩
        exNs exCfg [] [] exContract exSt
        = some (c2out.1, c2out.2.1, c2out.2.2.1, c2out.2.2.2) from by rfl)⟩

/-!  ## C8 — ordering of materialization, φ wiring and branch emission  -/

theorem lookupBlock_append (l1 l2 : Blocks) (n : Nat) :
    lookupBlock (l1 ++ l2) n
      = match lookupBlock l1 n with
        | some b => some b
        | none => lookupBlock l2 n := by
  induction l1 with
  | nil => simp [lookupBlock]
  | cons p rest ih =>
    by_cases hn : p.1 = n <;> simp [lookupBlock, hn, ih]

theorem c8branch_lemma {bin : Binary} {w : Work} {ns : Namespace}
    {cfg : ControlFlowGraph} {work : List Work} {blocks : Blocks} {contract : Contract}
    {st : EmitState} {dest : Nat}
    {w' : Work} {work' : List Work} {blocks' : Blocks} {st' : EmitState}
    (hfresh : lookupBlock blocks dest = none)
    (h : process_instruction (.branch dest) bin w ns cfg work blocks contract st
        = some (w', work', blocks', st')) :
    st'.events = st.events
      ++ [Event.createBlock dest st.nextId, Event.positionAt st.nextId]
      ++ ((cfg.blocks.getD dest default).phiVars.map fun v => Event.createPhi st.nextId v)
      ++ ((cfg.blocks.getD dest default).phiVars.map fun v =>
            Event.addIncoming st.nextId v ((w.vars v).value) st.insertBlock)
      ++ [Event.positionAt st.insertBlock, Event.instr st.insertBlock (.br st.nextId)] := by
  simp only [process_instruction, add_or_retrieve_block, create_block, appendBlock,
    positionAtEnd, emitIns, hfresh, Option.some.injEq, Prod.mk.injEq] at h
  obtain ⟨hw, hwork, hblocks, hst⟩ := h
  subst hst
  simp [List.map_map, List.append_assoc, Function.comp]

theorem c8branchcond_lemma {bin : Binary} {w : Work} {ns : Namespace}
    {cfg : ControlFlowGraph} {work : List Work} {blocks : Blocks} {contract : Contract}
    {st : EmitState} {cond : Expression} {t f : Nat}
    {w' : Work} {work' : List Work} {blocks' : Blocks} {st' : EmitState}
    (hfresht : lookupBlock blocks t = none) (hfreshf : lookupBlock blocks f = none)
    (hne : f ≠ t)
    (h : process_instruction (.branchCond cond t f) bin w ns cfg work blocks contract st
        = some (w', work', blocks', st')) :
    st'.events = st.events
      ++ [Event.createBlock t st.nextId, Event.positionAt st.nextId]
      ++ ((cfg.blocks.getD t default).phiVars.map fun v => Event.createPhi st.nextId v)
      ++ ((cfg.blocks.getD t default).phiVars.map fun v =>
            Event.addIncoming st.nextId v ((w.vars v).value) st.insertBlock)
      ++ [Event.createBlock f (st.nextId + 1), Event.positionAt (st.nextId + 1)]
      ++ ((cfg.blocks.getD f default).phiVars.map fun v => Event.createPhi (st.nextId + 1) v)
      ++ ((cfg.blocks.getD f default).phiVars.map fun v =>
            Event.addIncoming (st.nextId + 1) v ((w.vars v).value) st.insertBlock)
      ++ [Event.positionAt st.insertBlock,
          Event.instr st.insertBlock
            (.condBr (expression cond w.vars) st.nextId (st.nextId + 1))] := by
  have hfreshf2 : lookupBlock (blocks ++
      [(t, { bb := st.nextId,
             phis := (cfg.blocks.getD t default).phiVars.map fun v => (v, Value.phi t v) })]) f
      = none := by
    rw [lookupBlock_append, hfreshf]
    simp [lookupBlock, Ne.symm hne]
  simp only [process_instruction, add_or_retrieve_block, create_block, appendBlock,
    positionAtEnd, emitIns, hfresht, hfreshf2, Option.some.injEq, Prod.mk.injEq] at h
  obtain ⟨hw, hwork, hblocks, hst⟩ := h
  subst hst
  simp only [List.map_map, List.append_assoc, List.singleton_append, List.cons_append,
    List.nil_append]
  rfl

/-- One predecessor edge as `add_or_retrieve_block` processes it, read off
the final blocks map `blocks2`: the target is materialized as `blk`; the
wiring events of the edge register one φ incoming per φ of `blk`, with the
branch-site block `pos` as predecessor and the environment snapshot as
value; the materialization events are empty when the target had already
been materialized, and are exactly the block- and φ-creation events
otherwise. -/
def AorGroup (t pos : Nat) (vars : Env) (cfg : ControlFlowGraph) (blocks2 : Blocks)
    (matEvs wireEvs : List Event) (bb : Nat) : Prop :=
  ∃ blk, lookupBlock blocks2 t = some blk ∧ bb = blk.bb ∧
    wireEvs = blk.phis.map (fun p => Event.addIncoming blk.bb p.1 ((vars p.1).value) pos) ∧
    (matEvs = [] ∨
      matEvs = [Event.createBlock t blk.bb, Event.positionAt blk.bb]
        ++ ((cfg.blocks.getD t default).phiVars.map fun v => Event.createPhi blk.bb v))

theorem lookupBlock_mono {l1 : Blocks} {n : Nat} {b : BasicBlock} (l2 : Blocks)
    (h : lookupBlock l1 n = some b) : lookupBlock (l1 ++ l2) n = some b := by
  rw [lookupBlock_append, h]

theorem AorGroup_mono {t pos : Nat} {vars : Env} {cfg : ControlFlowGraph} {b1 : Blocks}
    (l2 : Blocks) {mat wire : List Event} {bb : Nat}
    (h : AorGroup t pos vars cfg b1 mat wire bb) :
    AorGroup t pos vars cfg (b1 ++ l2) mat wire bb := by
  obtain ⟨blk, hl, hbb, hwire, hmat⟩ := h
  exact ⟨blk, lookupBlock_mono l2 hl, hbb, hwire, hmat⟩

/-- The per-case edge groups of a `Switch` lowering: each case contributes
its materialization events followed by its wiring events, together with
its lowered (value, block) pair. -/
inductive SwitchGroups (pos : Nat) (vars : Env) (cfg : ControlFlowGraph) (blocks2 : Blocks) :
    List (Expression × Nat) → List Event → List (Value × Nat) → Prop where
  | nil : SwitchGroups pos vars cfg blocks2 [] [] []
  | cons {e : Expression} {bno : Nat} {rest : List (Expression × Nat)} {evs : List Event}
      {cs : List (Value × Nat)} {mat wire : List Event} {bb : Nat} :
      AorGroup bno pos vars cfg blocks2 mat wire bb →
      SwitchGroups pos vars cfg blocks2 rest evs cs →
      SwitchGroups pos vars cfg blocks2 ((e, bno) :: rest) (mat ++ wire ++ evs)
        ((expression e vars, bb) :: cs)

theorem SwitchGroups_mono {pos : Nat} {vars : Env} {cfg : ControlFlowGraph} {b1 : Blocks}
    (l2 : Blocks) {cases : List (Expression × Nat)} {evs : List Event}
    {cs : List (Value × Nat)} (h : SwitchGroups pos vars cfg b1 cases evs cs) :
    SwitchGroups pos vars cfg (b1 ++ l2) cases evs cs := by
  induction h with
  | nil => exact .nil
  | cons hg _ ih => exact .cons (AorGroup_mono l2 hg) ih

theorem c8aor_lemma {block_no pos : Nat} {blocks : Blocks} {work : List Work} {w : Work}
    {cfg : ControlFlowGraph} {st : EmitState} {bb : Nat} {blocks2 : Blocks}
    {work2 : List Work} {st2 : EmitState}
    (h : add_or_retrieve_block block_no pos blocks work w cfg st
      = (bb, blocks2, work2, st2)) :
    ∃ matEvs wireEvs bsuf,
      st2.events = st.events ++ matEvs ++ wireEvs ∧
      blocks2 = blocks ++ bsuf ∧
      AorGroup block_no pos w.vars cfg blocks2 matEvs wireEvs bb := by
  cases hlook : lookupBlock blocks block_no with
  | some b =>
    simp only [add_or_retrieve_block, hlook, Prod.mk.injEq] at h
    obtain ⟨hbb, hblocks, hwork, hst⟩ := h
    subst hbb hblocks hwork hst
    exact ⟨[], b.phis.map (fun p => Event.addIncoming b.bb p.1 ((w.vars p.1).value) pos),
      [], by simp, by simp, b, hlook, rfl, rfl, Or.inl rfl⟩
  | none =>
    simp only [add_or_retrieve_block, hlook, create_block, appendBlock, positionAtEnd,
      Prod.mk.injEq] at h
    obtain ⟨hbb, hblocks, hwork, hst⟩ := h
    subst hbb hblocks hwork hst
    refine ⟨[Event.createBlock block_no st.nextId, Event.positionAt st.nextId]
        ++ ((cfg.blocks.getD block_no default).phiVars.map
          fun v => Event.createPhi st.nextId v),
      ((cfg.blocks.getD block_no default).phiVars.map
          fun v => (v, Value.phi block_no v)).map
        (fun p => Event.addIncoming st.nextId p.1 ((w.vars p.1).value) pos),
      [(block_no, BasicBlock.mk st.nextId
        ((cfg.blocks.getD block_no default).phiVars.map
          fun v => (v, Value.phi block_no v)))],
      by simp [List.append_assoc], rfl, ?_⟩
    refine ⟨BasicBlock.mk st.nextId
      ((cfg.blocks.getD block_no default).phiVars.map fun v => (v, Value.phi block_no v)),
      ?_, rfl, rfl, Or.inr rfl⟩
    rw [lookupBlock_append, hlook]
    simp [lookupBlock]

theorem switchCases_lemma (cases : List (Expression × Nat)) :
    ∀ {pos : Nat} {blocks : Blocks} {work : List Work} {w : Work} {cfg : ControlFlowGraph}
      {st : EmitState} {cs : List (Value × Nat)} {blocks2 : Blocks} {work2 : List Work}
      {st2 : EmitState},
      lowerSwitchCases cases pos blocks work w cfg st = (cs, blocks2, work2, st2) →
      ∃ evs bsuf, st2.events = st.events ++ evs ∧ blocks2 = blocks ++ bsuf ∧
        SwitchGroups pos w.vars cfg blocks2 cases evs cs := by
  induction cases with
  | nil =>
    intro pos blocks work w cfg st cs blocks2 work2 st2 h
    simp only [lowerSwitchCases, Prod.mk.injEq] at h
    obtain ⟨hcs, hblocks, hwork, hst⟩ := h
    subst hcs hblocks hwork hst
    exact ⟨[], [], by simp, by simp, .nil⟩
  | cons hd rest ih =>
    intro pos blocks work w cfg st cs blocks2 work2 st2 h
    obtain ⟨e, bno⟩ := hd
    rcases haor : add_or_retrieve_block bno pos blocks work w cfg st with
      ⟨bb1, blocksA, workA, stA⟩
    rcases hrec : lowerSwitchCases rest pos blocksA workA w cfg stA with
      ⟨tailcs, blocksB, workB, stB⟩
    simp only [lowerSwitchCases, haor, hrec, Prod.mk.injEq] at h
    obtain ⟨hcs, hblocks, hwork, hst⟩ := h
    subst hcs hblocks hwork hst
    obtain ⟨mat, wire, bsufA, hevA, hblA, hgroupA⟩ := c8aor_lemma haor
    obtain ⟨evs2, bsufB, hevB, hblB, hgroups⟩ := ih hrec
    refine ⟨mat ++ wire ++ evs2, bsufA ++ bsufB, ?_, ?_, ?_⟩
    · rw [hevB, hevA]
      simp [List.append_assoc]
    · rw [hblB, hblA]
      simp [List.append_assoc]
    · have hgA : AorGroup bno pos w.vars cfg blocksB mat wire bb1 := by
        rw [hblB]
        exact AorGroup_mono bsufB hgroupA
      exact .cons hgA hgroups

theorem c8branchall_lemma {bin : Binary} {w : Work} {ns : Namespace}
    {cfg : ControlFlowGraph} {work : List Work} {blocks : Blocks} {contract : Contract}
    {st : EmitState} {dest : Nat}
    {w' : Work} {work' : List Work} {blocks' : Blocks} {st' : EmitState}
    (h : process_instruction (.branch dest) bin w ns cfg work blocks contract st
        = some (w', work', blocks', st')) :
    ∃ bb matEvs wireEvs,
      st'.events = st.events ++ matEvs ++ wireEvs
        ++ [Event.positionAt st.insertBlock, Event.instr st.insertBlock (.br bb)] ∧
      AorGroup dest st.insertBlock w.vars cfg blocks' matEvs wireEvs bb := by
  rcases haor : add_or_retrieve_block dest st.insertBlock blocks work w cfg st with
    ⟨bb2, blocks2, work2, st2⟩
  simp only [process_instruction, haor, positionAtEnd, emitIns, Option.some.injEq,
    Prod.mk.injEq] at h
  obtain ⟨hw, hwork, hblocks, hst⟩ := h
  subst hblocks hst
  obtain ⟨mat, wire, bsuf, hev, hbl, hgroup⟩ := c8aor_lemma haor
  refine ⟨bb2, mat, wire, ?_, hgroup⟩
  rw [hev]
  simp [List.append_assoc]

theorem c8branchcondall_lemma {bin : Binary} {w : Work} {ns : Namespace}
    {cfg : ControlFlowGraph} {work : List Work} {blocks : Blocks} {contract : Contract}
    {st : EmitState} {cond : Expression} {t f : Nat}
    {w' : Work} {work' : List Work} {blocks' : Blocks} {st' : EmitState}
    (h : process_instruction (.branchCond cond t f) bin w ns cfg work blocks contract st
        = some (w', work', blocks', st')) :
    ∃ bbT bbF mat1 wire1 mat2 wire2,
      st'.events = st.events ++ mat1 ++ wire1 ++ mat2 ++ wire2
        ++ [Event.positionAt st.insertBlock,
            Event.instr st.insertBlock (.condBr (expression cond w.vars) bbT bbF)] ∧
      AorGroup t st.insertBlock w.vars cfg blocks' mat1 wire1 bbT ∧
      AorGroup f st.insertBlock w.vars cfg blocks' mat2 wire2 bbF := by
  rcases haor1 : add_or_retrieve_block t st.insertBlock blocks work w cfg st with
    ⟨bbT0, blocks2, work2, st2⟩
  rcases haor2 : add_or_retrieve_block f st.insertBlock blocks2 work2 w cfg st2 with
    ⟨bbF0, blocks3, work3, st3⟩
  simp only [process_instruction, haor1, haor2, positionAtEnd, emitIns, Option.some.injEq,
    Prod.mk.injEq] at h
  obtain ⟨hw, hwork, hblocks, hst⟩ := h
  subst hblocks hst
  obtain ⟨mat1, wire1, bsuf1, hev1, hbl1, hg1⟩ := c8aor_lemma haor1
  obtain ⟨mat2, wire2, bsuf2, hev2, hbl2, hg2⟩ := c8aor_lemma haor2
  have hg1b : AorGroup t st.insertBlock w.vars cfg blocks3 mat1 wire1 bbT0 := by
    rw [hbl2]
    exact AorGroup_mono bsuf2 hg1
  refine ⟨bbT0, bbF0, mat1, wire1, mat2, wire2, ?_, hg1b, hg2⟩
  rw [hev2, hev1]
  simp [List.append_assoc]

theorem c8switchall_lemma {bin : Binary} {w : Work} {ns : Namespace}
    {cfg : ControlFlowGraph} {work : List Work} {blocks : Blocks} {contract : Contract}
    {st : EmitState} {cond : Expression} {cases : List (Expression × Nat)} {dflt : Nat}
    {w' : Work} {work' : List Work} {blocks' : Blocks} {st' : EmitState}
    (h : process_instruction (.switch cond cases dflt) bin w ns cfg work blocks contract st
        = some (w', work', blocks', st')) :
    ∃ cs caseEvs bbD matD wireD,
      st'.events = st.events ++ caseEvs ++ matD ++ wireD
        ++ [Event.positionAt st.insertBlock,
            Event.instr st.insertBlock (.switchBr (expression cond w.vars) cs bbD)] ∧
      SwitchGroups st.insertBlock w.vars cfg blocks' cases caseEvs cs ∧
      AorGroup dflt st.insertBlock w.vars cfg blocks' matD wireD bbD := by
  rcases hsc : lowerSwitchCases cases st.insertBlock blocks work w cfg st with
    ⟨cs0, blocks2, work2, st2⟩
  rcases haor : add_or_retrieve_block dflt st.insertBlock blocks2 work2 w cfg st2 with
    ⟨bbD0, blocks3, work3, st3⟩
  simp only [process_instruction, hsc, haor, positionAtEnd, emitIns, Option.some.injEq,
    Prod.mk.injEq] at h
  obtain ⟨hw, hwork, hblocks, hst⟩ := h
  subst hblocks hst
  obtain ⟨evs, bsufA, hev1, hbl1, hgroups⟩ := switchCases_lemma cases hsc
  obtain ⟨matD, wireD, bsufB, hev2, hbl2, hgD⟩ := c8aor_lemma haor
  have hgroupsb : SwitchGroups st.insertBlock w.vars cfg blocks3 cases evs cs0 := by
    rw [hbl2]
    exact SwitchGroups_mono bsufB hgroups
  refine ⟨cs0, evs, bbD0, matD, wireD, ?_, hgroupsb, hgD⟩
  rw [hev2, hev1]
  simp [List.append_assoc]

/-- **C8** (amended).  At every branch site — `Branch`, `BranchCond` and
`Switch` — and for every edge, cached targets included: the target block
is materialized first (the materialization events are empty when it
already was); the φ incomings for the edge are registered immediately
after materialization, *inside* `add_or_retrieve_block` and therefore
before — not after — the builder's insertion point is restored to the
branch-site block (the wiring uses the explicitly recorded branch-site
block as predecessor); the branch or switch instruction itself is the
final event, emitted after the restoration. -/
theorem c8_branch_site_order :
    (∀ {bin : Binary} {w : Work} {ns : Namespace} {cfg : ControlFlowGraph}
      {work : List Work} {blocks : Blocks} {contract : Contract} {st : EmitState}
      {dest : Nat} {w' : Work} {work' : List Work} {blocks' : Blocks} {st' : EmitState},
      process_instruction (.branch dest) bin w ns cfg work blocks contract st
        = some (w', work', blocks', st') →
      ∃ bb matEvs wireEvs,
        st'.events = st.events ++ matEvs ++ wireEvs
          ++ [Event.positionAt st.insertBlock, Event.instr st.insertBlock (.br bb)] ∧
        AorGroup dest st.insertBlock w.vars cfg blocks' matEvs wireEvs bb) ∧
    (∀ {bin : Binary} {w : Work} {ns : Namespace} {cfg : ControlFlowGraph}
      {work : List Work} {blocks : Blocks} {contract : Contract} {st : EmitState}
      {cond : Expression} {t f : Nat}
      {w' : Work} {work' : List Work} {blocks' : Blocks} {st' : EmitState},
      process_instruction (.branchCond cond t f) bin w ns cfg work blocks contract st
        = some (w', work', blocks', st') →
      ∃ bbT bbF mat1 wire1 mat2 wire2,
        st'.events = st.events ++ mat1 ++ wire1 ++ mat2 ++ wire2
          ++ [Event.positionAt st.insertBlock,
              Event.instr st.insertBlock (.condBr (expression cond w.vars) bbT bbF)] ∧
        AorGroup t st.insertBlock w.vars cfg blocks' mat1 wire1 bbT ∧
        AorGroup f st.insertBlock w.vars cfg blocks' mat2 wire2 bbF) ∧
    (∀ {bin : Binary} {w : Work} {ns : Namespace} {cfg : ControlFlowGraph}
      {work : List Work} {blocks : Blocks} {contract : Contract} {st : EmitState}
      {cond : Expression} {cases : List (Expression × Nat)} {dflt : Nat}
      {w' : Work} {work' : List Work} {blocks' : Blocks} {st' : EmitState},
      process_instruction (.switch cond cases dflt) bin w ns cfg work blocks contract st
        = some (w', work', blocks', st') →
      ∃ cs caseEvs bbD matD wireD,
        st'.events = st.events ++ caseEvs ++ matD ++ wireD
          ++ [Event.positionAt st.insertBlock,
              Event.instr st.insertBlock (.switchBr (expression cond w.vars) cs bbD)] ∧
        SwitchGroups st.insertBlock w.vars cfg blocks' cases caseEvs cs ∧
        AorGroup dflt st.insertBlock w.vars cfg blocks' matD wireD bbD) :=
  ⟨fun h => c8branchall_lemma h, fun h => c8branchcondall_lemma h,
   fun h => c8switchall_lemma h⟩

def c8out : Work × List Work × Blocks × EmitState :=
  (process_instruction (.branch 1) exBin exW exNs exCfg [] [] exContract exSt).getD
    (exW, [], [], exSt)

/-- **C8** counterexample.  Lowering `Branch { 1 }` from block 0 (block 1
fresh, with a φ for variable 0) registers the φ incoming at trace index 3,
while the insertion point is restored to the branch-site block only at
trace index 4 — so the registration happens *before* the restoration, not
after it as the claim requires. -/
theorem c8_counterexample :
    firstIdx Event.isIncoming c8out.2.2.2.events = some 3 ∧
    firstIdx (Event.isPositionAt 0) c8out.2.2.2.events = some 4 ∧
    (3 : Nat) < 4 :=
  ⟨rfl, rfl, by omega⟩

def c8cout : Work × List Work × Blocks × EmitState :=
  (process_instruction (.branchCond (.numberLiteral .bool 1) 1 1) exBin exW exNs exCfg [] []
    exContract exSt).getD (exW, [], [], exSt)

def c8swout : Work × List Work × Blocks × EmitState :=
  (process_instruction (.switch (.numberLiteral (.uint 32) 0)
      [(.numberLiteral (.uint 32) 1, 1)] 1) exBin exW exNs exCfg [] [] exContract
    exSt).getD (exW, [], [], exSt)

/-- Witness for the amended C8: a `Branch` to a fresh φ-bearing block, a
`BranchCond` whose second edge targets the then-already-materialized same
block (exercising the cached case), and a `Switch` with one case edge and
a cached default edge. -/
theorem c8_branch_site_order_witness :
    (∃ bb matEvs wireEvs,
      c8out.2.2.2.events = exSt.events ++ matEvs ++ wireEvs
        ++ [Event.positionAt 0, Event.instr 0 (.br bb)] ∧
      AorGroup 1 0 exW.vars exCfg c8out.2.2.1 matEvs wireEvs bb) ∧
    (∃ bbT bbF mat1 wire1 mat2 wire2,
      c8cout.2.2.2.events = exSt.events ++ mat1 ++ wire1 ++ mat2 ++ wire2
        ++ [Event.positionAt 0,
            Event.instr 0 (.condBr (expression (.numberLiteral .bool 1) exW.vars) bbT bbF)] ∧
      AorGroup 1 0 exW.vars exCfg c8cout.2.2.1 mat1 wire1 bbT ∧
      AorGroup 1 0 exW.vars exCfg c8cout.2.2.1 mat2 wire2 bbF) ∧
    (∃ cs caseEvs bbD matD wireD,
      c8swout.2.2.2.events = exSt.events ++ caseEvs ++ matD ++ wireD
        ++ [Event.positionAt 0,
            Event.instr 0 (.switchBr (expression (.numberLiteral (.uint 32) 0) exW.vars)
              cs bbD)] ∧
      SwitchGroups 0 exW.vars exCfg c8swout.2.2.1 [(.numberLiteral (.uint 32) 1, 1)]
        caseEvs cs ∧
      AorGroup 1 0 exW.vars exCfg c8swout.2.2.1 matD wireD bbD) :=
  ⟨c8_branch_site_order.1
    (show process_instruction (.branch 1) exBin exW exNs exCfg [] [] exContract exSt
      = some (c8out.1, c8out.2.1, c8out.2.2.1, c8out.2.2.2) from by rfl),
   c8_branch_site_order.2.1
    (show process_instruction (.branchCond (.numberLiteral .bool 1) 1 1) exBin exW exNs
        exCfg [] [] exContract exSt
      = some (c8cout.1, c8cout.2.1, c8cout.2.2.1, c8cout.2.2.2) from by rfl),
   c8_branch_site_order.2.2
    (show process_instruction (.switch (.numberLiteral (.uint 32) 0)
          [(.numberLiteral (.uint 32) 1, 1)] 1) exBin exW exNs exCfg [] [] exContract exSt
      = some (c8swout.1, c8swout.2.1, c8swout.2.2.1, c8swout.2.2.2) from by rfl)⟩

/-!  ## C1 — φ completeness per predecessor edge  -/

theorem c1aor_lemma {block_no pos : Nat} {blocks : Blocks} {work : List Work}
    {w : Work} {cfg : ControlFlowGraph} {st : EmitState}
    {bb : Nat} {blocks' : Blocks} {work' : List Work} {st' : EmitState}
    (h : add_or_retrieve_block block_no pos blocks work w cfg st = (bb, blocks', work', st'))
    (blk : BasicBlock) (hblk : lookupBlock blocks' block_no = some blk) :
    blk.bb = bb ∧ ∀ v φv, (v, φv) ∈ blk.phis →
      Event.addIncoming bb v ((w.vars v).value) pos ∈ st'.events := by
  cases hlook : lookupBlock blocks block_no with
  | some b =>
    simp only [add_or_retrieve_block, hlook, Prod.mk.injEq] at h
    obtain ⟨hbb, hblocks, hwork, hst⟩ := h
    subst hbb hblocks hwork hst
    rw [hlook] at hblk
    obtain rfl : b = blk := by cases hblk; rfl
    refine ⟨rfl, ?_⟩
    intro v φv hmem
    simp only [List.mem_append, List.mem_map]
    exact Or.inr ⟨(v, φv), hmem, rfl⟩
  | none =>
    simp only [add_or_retrieve_block, hlook, create_block, appendBlock, positionAtEnd,
      Prod.mk.injEq] at h
    obtain ⟨hbb, hblocks, hwork, hst⟩ := h
    subst hbb hblocks hwork hst
    rw [lookupBlock_append, hlook] at hblk
    simp only [lookupBlock, if_pos rfl] at hblk
    obtain rfl : BasicBlock.mk st.nextId
        ((cfg.blocks.getD block_no default).phiVars.map fun v => (v, Value.phi block_no v))
        = blk := by
      cases hblk; rfl
    refine ⟨rfl, ?_⟩
    intro v φv hmem
    rw [List.mem_map] at hmem
    obtain ⟨a, ha, heq⟩ := hmem
    obtain ⟨rfl, rfl⟩ : a = v ∧ Value.phi block_no a = φv := by
      cases heq; exact ⟨rfl, rfl⟩
    simp only [List.mem_append, List.map_map, List.mem_map, Function.comp]
    exact Or.inr ⟨a, ha, rfl⟩

theorem c1abidecode_lemma {bin : Binary} {w : Work} {ns : Namespace}
    {cfg : ControlFlowGraph} {work : List Work} {blocks : Blocks} {contract : Contract}
    {st : EmitState} {res : List Nat} {sel excOpt : Option Nat} {tys : List Ty}
    {dataE : Expression} {dlE : Option Expression}
    {w' : Work} {work' : List Work} {blocks' : Blocks} {st' : EmitState}
    (h : process_instruction (.abiDecode res sel excOpt tys dataE dlE) bin w ns cfg work
        blocks contract st = some (w', work', blocks', st')) :
    ∃ evs, st'.events = st.events ++ evs ∧ ∀ e ∈ evs, e.isIncoming = false := by
  cases sel with
  | none =>
    simp only [process_instruction] at h
    simp only [Option.bind_eq_bind] at h
    rw [Option.bind_eq_some] at h
    obtain ⟨vars, hb, h⟩ := h
    simp only [Option.some.injEq, Prod.mk.injEq, emitIns] at h
    obtain ⟨hw, hwork, hblocks, hst⟩ := h
    subst hst
    refine ⟨_, rfl, ?_⟩
    intro e he
    simp only [List.mem_singleton] at he
    subst he
    rfl
  | some selector =>
    cases excOpt with
    | none =>
      simp only [process_instruction, Option.bind] at h
      cases h
    | some exc =>
      simp only [process_instruction, Option.bind_eq_bind, Option.some_bind, create_block,
        appendBlock, positionAtEnd, emitIns] at h
      cases hlook : lookupBlock blocks exc with
      | some b =>
        simp only [hlook, Option.some_bind] at h
        rw [Option.bind_eq_some] at h
        obtain ⟨vars, hb, h⟩ := h
        simp only [Option.some.injEq, Prod.mk.injEq] at h
        obtain ⟨hw, hwork, hblocks, hst⟩ := h
        subst hst
        refine ⟨_, by simp only [List.append_assoc, List.singleton_append,
          List.cons_append, List.nil_append]; rfl, ?_⟩
        intro e he
        simp only [List.cons_append, List.nil_append, List.singleton_append, List.mem_cons,
          List.mem_append, List.mem_map, List.mem_singleton, List.not_mem_nil, or_false] at he
        rcases he with rfl | rfl | he | rfl | rfl | rfl | rfl | rfl | rfl
        · rfl
        · rfl
        · obtain ⟨x, _, rfl⟩ := he
          rfl
        · rfl
        · rfl
        · rfl
        · rfl
        · rfl
        · rfl
      | none =>
        have hl2 : lookupBlock (blocks ++ [(exc, BasicBlock.mk st.nextId
            ((cfg.blocks.getD exc default).phiVars.map fun v => (v, Value.phi exc v)))]) exc
            = some (BasicBlock.mk st.nextId
              ((cfg.blocks.getD exc default).phiVars.map fun v => (v, Value.phi exc v))) := by
          rw [lookupBlock_append, hlook]
          simp [lookupBlock]
        simp only [hlook, hl2, Option.some_bind] at h
        rw [Option.bind_eq_some] at h
        obtain ⟨vars, hb, h⟩ := h
        simp only [Option.some.injEq, Prod.mk.injEq] at h
        obtain ⟨hw, hwork, hblocks, hst⟩ := h
        subst hst
        refine ⟨_, by simp only [List.append_assoc, List.singleton_append,
          List.cons_append, List.nil_append]; rfl, ?_⟩
        intro e he
        simp only [List.cons_append, List.nil_append, List.singleton_append, List.mem_cons,
          List.mem_append, List.mem_map, List.mem_singleton, List.not_mem_nil, or_false] at he
        rcases he with rfl | rfl | he | rfl | rfl | rfl | rfl | rfl | rfl
        · rfl
        · rfl
        · obtain ⟨x, _, rfl⟩ := he
          rfl
        · rfl
        · rfl
        · rfl
        · rfl
        · rfl
        · rfl

/-- **C1** (amended).  For every predecessor edge registered through
`add_or_retrieve_block` (the `Branch`, `BranchCond` and `Switch` sites),
every φ of the target block receives an incoming from the branch-site
block whose value is the environment snapshot there.  The edges into an
`AbiDecode` exception block are the exception: that arm materializes and
enqueues the block but registers **no** φ incoming for them. -/
theorem c1_phi_wiring :
    (∀ {block_no pos : Nat} {blocks : Blocks} {work : List Work} {w : Work}
      {cfg : ControlFlowGraph} {st : EmitState} {bb : Nat} {blocks' : Blocks}
      {work' : List Work} {st' : EmitState},
      add_or_retrieve_block block_no pos blocks work w cfg st = (bb, blocks', work', st') →
      ∀ blk, lookupBlock blocks' block_no = some blk →
        blk.bb = bb ∧ ∀ v φv, (v, φv) ∈ blk.phis →
          Event.addIncoming bb v ((w.vars v).value) pos ∈ st'.events) ∧
    (∀ {bin : Binary} {w : Work} {ns : Namespace} {cfg : ControlFlowGraph}
      {work : List Work} {blocks : Blocks} {contract : Contract} {st : EmitState}
      {res : List Nat} {sel excOpt : Option Nat} {tys : List Ty} {dataE : Expression}
      {dlE : Option Expression} {w' : Work} {work' : List Work} {blocks' : Blocks}
      {st' : EmitState},
      process_instruction (.abiDecode res sel excOpt tys dataE dlE) bin w ns cfg work
        blocks contract st = some (w', work', blocks', st') →
      ∃ evs, st'.events = st.events ++ evs ∧ ∀ e ∈ evs, e.isIncoming = false) :=
  ⟨fun h blk hblk => c1aor_lemma h blk hblk, fun h => c1abidecode_lemma h⟩

def c1out : Work × List Work × Blocks × EmitState :=
  (process_instruction
      (.abiDecode [] (some 5) (some 1) [] (.var .dynamicBytes 0)
        (some (.numberLiteral (.uint 32) 10)))
      exBin exW exNs exCfg [] [] exContract exSt).getD (exW, [], [], exSt)

/-- **C1** counterexample.  Lowering an `AbiDecode` with selector 5 and
exception block 1 (which gets a φ for variable 0) emits a conditional
branch from block 0 into the exception block, yet the whole lowering
registers no φ incoming at all — the φ of the exception block receives
nothing from this predecessor, contradicting the claim. -/
theorem c1_counterexample :
    lookupBlock c1out.2.2.1 1 = some ⟨1, [(0, .phi 1 0)]⟩ ∧
    Event.instr 0 (.condBr (.icmpUgt (.intConst 10) (.intConst 4)) 2 1)
      ∈ c1out.2.2.2.events ∧
    ∀ e ∈ c1out.2.2.2.events, e.isIncoming = false := by
  have hev : c1out.2.2.2.events = [Event.createBlock 1 1, Event.positionAt 1,
      Event.createPhi 1 0, Event.positionAt 0,
      Event.instr 0 (.condBr (.icmpUgt (.intConst 10) (.intConst 4)) 2 1),
      Event.positionAt 2,
      Event.instr 2 (.condBr (.icmpEq (.load (.ptrCast (vector_bytes (.intConst 7))))
        (.intConst 5)) 3 1),
      Event.positionAt 3,
      Event.instr 3 (.abiDecodeCall
        (.gep (.ptrCast (vector_bytes (.intConst 7))) [.intConst 4])
        (.sub (.intConst 10) (.intConst 4)) [])] := rfl
  refine ⟨rfl, ?_, ?_⟩
  · rw [hev]
    simp
  · rw [hev]
    intro e he
    simp only [List.mem_cons, List.not_mem_nil, or_false] at he
    rcases he with rfl | rfl | rfl | rfl | rfl | rfl | rfl | rfl | rfl <;> rfl

def c1aorOut : Nat × Blocks × List Work × EmitState :=
  add_or_retrieve_block 1 0 [] [] exW exCfg exSt

/-- Witness for the amended C1: the `add_or_retrieve_block` part at the
concrete `Branch` scenario, and the `AbiDecode` part at the concrete
scenario of the counterexample. -/
theorem c1_phi_wiring_witness :
    ((⟨1, [(0, .phi 1 0)]⟩ : BasicBlock).bb = c1aorOut.1 ∧
      ∀ v φv, (v, φv) ∈ (⟨1, [(0, .phi 1 0)]⟩ : BasicBlock).phis →
        Event.addIncoming c1aorOut.1 v ((exW.vars v).value) 0 ∈ c1aorOut.2.2.2.events) ∧
    (∃ evs, c1out.2.2.2.events = exSt.events ++ evs ∧ ∀ e ∈ evs, e.isIncoming = false) :=
  ⟨c1_phi_wiring.1
      (show add_or_retrieve_block 1 0 [] [] exW exCfg exSt
        = (c1aorOut.1, c1aorOut.2.1, c1aorOut.2.2.1, c1aorOut.2.2.2) from by rfl)
      ⟨1, [(0, .phi 1 0)]⟩ (by rfl),
   c1_phi_wiring.2
      (show process_instruction
          (.abiDecode [] (some 5) (some 1) [] (.var .dynamicBytes 0)
            (some (.numberLiteral (.uint 32) 10)))
          exBin exW exNs exCfg [] [] exContract exSt
          = some (c1out.1, c1out.2.1, c1out.2.2.1, c1out.2.2.2) from by rfl)⟩

/-!  ## Helper lemmas about the call-lowering building blocks  -/

theorem allocRets_spec (rets : List Ty) :
    ∀ (parms : List Value) (st : EmitState),
      ∃ L st2, allocRets rets parms st = (parms ++ L, st2) ∧
        (∀ a ∈ L, ∃ id, a = Value.alloca id) ∧
        st2.events = st.events ∧ st2.insertBlock = st.insertBlock ∧
        st.nextId ≤ st2.nextId := by
  induction rets with
  | nil =>
    intro parms st
    exact ⟨[], st, by simp [allocRets], by simp, rfl, rfl, Nat.le.refl⟩
  | cons t rest ih =>
    intro parms st
    obtain ⟨L, st2, heq, hall, hev, hib, hle⟩ :=
      ih (parms ++ [Value.alloca st.nextId]) { st with nextId := st.nextId + 1 }
    have hle2 : st.nextId + 1 ≤ st2.nextId := hle
    refine ⟨Value.alloca st.nextId :: L, st2, ?_, ?_, hev, hib, by omega⟩
    · simp only [allocRets, buildAlloca]
      rw [heq]
      simp
    · intro a ha
      rcases List.mem_cons.mp ha with rfl | ha2
      · exact ⟨st.nextId, rfl⟩
      · exact hall a ha2

theorem bindReturns_events (rets : List Ty) :
    ∀ (b : Bool) (parms : List Value) (aL i : Nat) (res : List Nat)
      (vars : Env) (st : EmitState) (vars2 : Env) (st2 : EmitState),
      bindReturns rets b parms aL i res vars st = some (vars2, st2) →
      st2.insertBlock = st.insertBlock ∧ st2.nextId = st.nextId ∧
      ∃ evs, st2.events = st.events ++ evs ∧
        ∀ e ∈ evs, ∃ ins, e = Event.instr st.insertBlock ins := by
  induction rets with
  | nil =>
    intro b parms aL i res vars st vars2 st2 h
    simp only [bindReturns, Option.some.injEq, Prod.mk.injEq] at h
    obtain ⟨hv, hst⟩ := h
    subst hst
    exact ⟨rfl, rfl, [], by simp, by simp⟩
  | cons t rest ih =>
    intro b parms aL i res vars st vars2 st2 h
    simp only [bindReturns, Option.bind_eq_bind] at h
    rw [Option.bind_eq_some] at h
    obtain ⟨pv, hpv, h⟩ := h
    rw [Option.bind_eq_some] at h
    obtain ⟨r, hr, h⟩ := h
    by_cases hc : ((vars r).value.isPointerValue
        && !(t.is_reference_type || (b && t.isExternalFunction))) = true
    · rw [if_pos hc] at h
      obtain ⟨hib, hni, evs, hev, hall⟩ := ih b parms aL (i + 1) res vars
        (emitIns st (.store (vars r).value (.load pv))) vars2 st2 h
      simp only [emitIns] at hib hni hev
      refine ⟨hib, hni, Event.instr st.insertBlock (.store (vars r).value (.load pv)) :: evs,
        by rw [hev]; simp, ?_⟩
      intro e he
      rcases List.mem_cons.mp he with rfl | he2
      · exact ⟨_, rfl⟩
      · obtain ⟨ins, hi⟩ := hall e he2
        exact ⟨ins, by rw [hi]; simp [emitIns]⟩
    · rw [if_neg hc] at h
      exact ih b parms aL (i + 1) res (updateVar vars r (.load pv)) st vars2 st2 h

/-!  ## C4 — AbiDecode selector handling  -/

/-- **C4** (confirmed).  For `AbiDecode` with a selector: the guard
requires `data_len > 4` (so `data_len = 4` takes the exception edge even
with a matching selector); the loaded selector word is compared against
the expected selector byte-swapped exactly when the target is not
Substrate; on the match path the data pointer is advanced by 4 and the
length decreased by 4 before the runtime `abi_decode` is invoked. -/
theorem c4_abidecode_selector {bin : Binary} {w : Work} {ns : Namespace}
    {cfg : ControlFlowGraph} {work : List Work} {blocks : Blocks} {contract : Contract}
    {st : EmitState} {res : List Nat} {sel exc : Nat} {tys : List Ty} {dataE : Expression}
    {dlE : Option Expression} {w' : Work} {work' : List Work} {blocks' : Blocks}
    {st' : EmitState} {data0 dlen : Value}
    (hdata : data0 = if dataE.ty.is_reference_type then
      vector_bytes (expression dataE w.vars) else expression dataE w.vars)
    (hdlen : dlen = match dlE with
      | some l => expression l w.vars
      | none => vector_len (expression dataE w.vars))
    (h : process_instruction (.abiDecode res (some sel) (some exc) tys dataE dlE) bin w ns
        cfg work blocks contract st = some (w', work', blocks', st')) :
    ∃ excBB ok1 ok2,
      Event.instr st.insertBlock (.condBr (.icmpUgt dlen (.intConst 4)) ok1 excBB)
        ∈ st'.events ∧
      (∀ o n, evalV o dlen = some n →
        condBrTarget o (.icmpUgt dlen (.intConst 4)) ok1 excBB
          = some (if 4 < n then ok1 else excBB)) ∧
      Event.instr ok1 (.condBr (.icmpEq (.load (.ptrCast data0))
        (.intConst (if ns.target.is_substrate then sel else bswap32 sel))) ok2 excBB)
        ∈ st'.events ∧
      Event.instr ok2 (.abiDecodeCall (.gep (.ptrCast data0) [.intConst 4])
        (.sub dlen (.intConst 4)) tys) ∈ st'.events := by
  have hsem : ∀ (ok1 excBB : Nat) (o : Value → Option Nat) (n : Nat),
      evalV o dlen = some n →
      condBrTarget o (.icmpUgt dlen (.intConst 4)) ok1 excBB
        = some (if 4 < n then ok1 else excBB) := by
    intro ok1 excBB o n hn
    have h1 : evalV o (.icmpUgt dlen (.intConst 4))
        = (evalV o dlen).bind fun x => some (if 4 < x then 1 else 0) := rfl
    have h2 : condBrTarget o (.icmpUgt dlen (.intConst 4)) ok1 excBB
        = some (if (if 4 < n then 1 else 0) ≠ 0 then ok1 else excBB) := by
      unfold condBrTarget
      rw [h1, hn]
      rfl
    rw [h2]
    by_cases hc : 4 < n <;> simp [hc]
  subst hdata hdlen
  simp only [process_instruction, Option.bind_eq_bind, Option.some_bind, create_block,
    appendBlock, positionAtEnd, emitIns] at h
  cases hlook : lookupBlock blocks exc with
  | some b =>
    simp only [hlook, Option.some_bind] at h
    rw [Option.bind_eq_some] at h
    obtain ⟨vars, hb, h⟩ := h
    simp only [Option.some.injEq, Prod.mk.injEq] at h
    obtain ⟨hw, hwork, hblocks, hst⟩ := h
    subst hst
    exact ⟨b.bb, st.nextId + 1, st.nextId + 2, by simp, hsem _ _, by simp, by simp⟩
  | none =>
    have hl2 : lookupBlock (blocks ++ [(exc, BasicBlock.mk st.nextId
        ((cfg.blocks.getD exc default).phiVars.map fun v => (v, Value.phi exc v)))]) exc
        = some (BasicBlock.mk st.nextId
          ((cfg.blocks.getD exc default).phiVars.map fun v => (v, Value.phi exc v))) := by
      rw [lookupBlock_append, hlook]
      simp [lookupBlock]
    simp only [hlook, hl2, Option.some_bind] at h
    rw [Option.bind_eq_some] at h
    obtain ⟨vars, hb, h⟩ := h
    simp only [Option.some.injEq, Prod.mk.injEq] at h
    obtain ⟨hw, hwork, hblocks, hst⟩ := h
    subst hst
    exact ⟨st.nextId, st.nextId + 1, st.nextId + 2, by simp, hsem _ _, by simp, by simp⟩

/-- Witness for C4: the concrete `AbiDecode` scenario of C1, on Substrate
with selector 5 and `data_len` 10; the semantic part is exercised at the
length 4, which takes the exception edge. -/
theorem c4_abidecode_selector_witness :
    (∃ excBB ok1 ok2,
      Event.instr 0 (.condBr (.icmpUgt (.intConst 10) (.intConst 4)) ok1 excBB)
        ∈ c1out.2.2.2.events ∧
      (∀ o n, evalV o (.intConst 10) = some n →
        condBrTarget o (.icmpUgt (.intConst 10) (.intConst 4)) ok1 excBB
          = some (if 4 < n then ok1 else excBB)) ∧
      Event.instr ok1 (.condBr (.icmpEq (.load (.ptrCast (vector_bytes (.intConst 7))))
        (.intConst (if (Target.substrate).is_substrate then 5 else bswap32 5))) ok2 excBB)
        ∈ c1out.2.2.2.events ∧
      Event.instr ok2 (.abiDecodeCall (.gep (.ptrCast (vector_bytes (.intConst 7)))
        [.intConst 4]) (.sub (.intConst 10) (.intConst 4)) [])
        ∈ c1out.2.2.2.events) :=
  c4_abidecode_selector (by rfl) (by rfl)
    (show process_instruction
        (.abiDecode [] (some 5) (some 1) [] (.var .dynamicBytes 0)
          (some (.numberLiteral (.uint 32) 10)))
        exBin exW exNs exCfg [] [] exContract exSt
        = some (c1out.1, c1out.2.1, c1out.2.2.1, c1out.2.2.2) from by rfl)

/-!  ## C6 — the ambient accounts parameter on internal calls  -/

theorem c6static_lemma {bin : Binary} {w : Work} {ns : Namespace}
    {cfg : ControlFlowGraph} {work : List Work} {blocks : Blocks} {contract : Contract}
    {st : EmitState} {res : List Nat} {cfg_no : Nat} {args : List Expression} {p : Value}
    {w' : Work} {work' : List Work} {blocks' : Blocks} {st' : EmitState}
    (hp : bin.parameters = some p)
    (h : process_instruction (.call res (.static cfg_no) args) bin w ns cfg work blocks
        contract st = some (w', work', blocks', st')) :
    ∃ base, Event.instr st.insertBlock (.internalCall cfg_no (base ++ [p])) ∈ st'.events := by
  simp only [process_instruction, Option.bind_eq_bind] at h
  rw [Option.bind_eq_some] at h
  obtain ⟨f, hf, h⟩ := h
  rw [hp] at h
  cases hres : res.isEmpty with
  | true =>
    simp only [hres, ite_true, appendBlock, positionAtEnd, emitIns, Option.some.injEq,
      Prod.mk.injEq] at h
    obtain ⟨hw, hwork, hblocks, hst⟩ := h
    subst hst
    exact ⟨args.map fun a => expression a w.vars, by simp⟩
  | false =>
    obtain ⟨L, st2, heq, hall, hev2, hib2, hle2⟩ :=
      allocRets_spec f.returns (args.map fun a => expression a w.vars) st
    simp only [hres, Bool.false_eq_true, ite_false, heq, appendBlock, positionAtEnd,
      emitIns, Option.bind_eq_bind] at h
    rw [Option.bind_eq_some] at h
    obtain ⟨vs, hbr, h⟩ := h
    obtain ⟨hib3, hni3, evs, hev3, hall3⟩ :=
      bindReturns_events f.returns true _ args.length 0 res w.vars _ vs.1 vs.2 hbr
    simp only [Option.some.injEq, Prod.mk.injEq] at h
    obtain ⟨hw, hwork, hblocks, hst⟩ := h
    subst hst
    refine ⟨(args.map fun a => expression a w.vars) ++ L, ?_⟩
    rw [hev3]
    simp only [hev2, hib2]
    simp

theorem c6dynamic_lemma {bin : Binary} {w : Work} {ns : Namespace}
    {cfg : ControlFlowGraph} {work : List Work} {blocks : Blocks} {contract : Contract}
    {st : EmitState} {res : List Nat} {call_expr : Expression} {args : List Expression}
    {p : Value} {rets : List Ty} {w' : Work} {work' : List Work} {blocks' : Blocks}
    {st' : EmitState}
    (hp : bin.parameters = some p)
    (hderef : call_expr.ty.deref_any = .internalFunction rets)
    (h : process_instruction (.call res (.dynamic call_expr) args) bin w ns cfg work blocks
        contract st = some (w', work', blocks', st')) :
    ∃ base, Event.instr st.insertBlock
      (.dynCall (expression call_expr w.vars) (base ++ [p])) ∈ st'.events := by
  simp only [process_instruction, hderef, Option.bind_eq_bind, Option.some_bind] at h
  rw [hp] at h
  cases hres : res.isEmpty with
  | true =>
    simp only [hres, ite_true, appendBlock, positionAtEnd, emitIns, Option.some.injEq,
      Prod.mk.injEq] at h
    obtain ⟨hw, hwork, hblocks, hst⟩ := h
    subst hst
    exact ⟨args.map fun a => expression a w.vars, by simp⟩
  | false =>
    obtain ⟨L, st2, heq, hall, hev2, hib2, hle2⟩ :=
      allocRets_spec rets (args.map fun a => expression a w.vars) st
    simp only [hres, Bool.false_eq_true, ite_false, heq, appendBlock, positionAtEnd,
      emitIns, Option.bind_eq_bind] at h
    rw [Option.bind_eq_some] at h
    obtain ⟨vs, hbr, h⟩ := h
    obtain ⟨hib3, hni3, evs, hev3, hall3⟩ :=
      bindReturns_events rets false _ args.length 0 res w.vars _ vs.1 vs.2 hbr
    simp only [Option.some.injEq, Prod.mk.injEq] at h
    obtain ⟨hw, hwork, hblocks, hst⟩ := h
    subst hst
    refine ⟨(args.map fun a => expression a w.vars) ++ L, ?_⟩
    rw [hev3]
    simp only [hev2, hib2]
    simp

theorem c6builtin_lemma {bin : Binary} {w : Work} {ns : Namespace}
    {cfg : ControlFlowGraph} {work : List Work} {blocks : Blocks} {contract : Contract}
    {st : EmitState} {res : List Nat} {fno : Nat} {args : List Expression}
    {w' : Work} {work' : List Work} {blocks' : Blocks} {st' : EmitState}
    (h : process_instruction (.call res (.builtin fno) args) bin w ns cfg work blocks
        contract st = some (w', work', blocks', st')) :
    ∃ L, Event.instr st.insertBlock
        (.builtinCallIns fno ((args.map fun a => expression a w.vars) ++ L)) ∈ st'.events ∧
      (∀ a ∈ L, ∃ id, a = Value.alloca id) ∧
      (res.isEmpty = true → L = []) := by
  simp only [process_instruction, Option.bind_eq_bind] at h
  rw [Option.bind_eq_some] at h
  obtain ⟨callee, hcallee, h⟩ := h
  cases hres : res.isEmpty with
  | true =>
    simp only [hres, ite_true, appendBlock, positionAtEnd, emitIns, Option.some.injEq,
      Prod.mk.injEq] at h
    obtain ⟨hw, hwork, hblocks, hst⟩ := h
    subst hst
    refine ⟨[], ?_, by simp, fun _ => rfl⟩
    simp
  | false =>
    obtain ⟨L, st2, heq, hall, hev2, hib2, hle2⟩ :=
      allocRets_spec callee.returns (args.map fun a => expression a w.vars) st
    simp only [hres, Bool.false_eq_true, ite_false, heq, appendBlock, positionAtEnd,
      emitIns, Option.bind_eq_bind] at h
    rw [Option.bind_eq_some] at h
    obtain ⟨vs, hbr, h⟩ := h
    obtain ⟨hib3, hni3, evs, hev3, hall3⟩ :=
      bindReturns_events callee.returns true _ args.length 0 res w.vars _ vs.1 vs.2 hbr
    simp only [Option.some.injEq, Prod.mk.injEq] at h
    obtain ⟨hw, hwork, hblocks, hst⟩ := h
    subst hst
    refine ⟨L, ?_, hall, by simp [hres]⟩
    rw [hev3]
    simp only [hev2, hib2]
    simp

/-- **C6** (amended).  When the ambient accounts parameter is present it
is appended to the argument list of Static and Dynamic internal calls;
the Builtin call arm does **not** append it — the runtime capability
receives only the lowered arguments followed by the return-slot
allocas. -/
theorem c6_accounts_param :
    (∀ {bin : Binary} {w : Work} {ns : Namespace} {cfg : ControlFlowGraph}
      {work : List Work} {blocks : Blocks} {contract : Contract} {st : EmitState}
      {res : List Nat} {cfg_no : Nat} {args : List Expression} {p : Value}
      {w' : Work} {work' : List Work} {blocks' : Blocks} {st' : EmitState},
      bin.parameters = some p →
      process_instruction (.call res (.static cfg_no) args) bin w ns cfg work blocks
        contract st = some (w', work', blocks', st') →
      ∃ base, Event.instr st.insertBlock (.internalCall cfg_no (base ++ [p]))
        ∈ st'.events) ∧
    (∀ {bin : Binary} {w : Work} {ns : Namespace} {cfg : ControlFlowGraph}
      {work : List Work} {blocks : Blocks} {contract : Contract} {st : EmitState}
      {res : List Nat} {call_expr : Expression} {args : List Expression} {p : Value}
      {rets : List Ty} {w' : Work} {work' : List Work} {blocks' : Blocks} {st' : EmitState},
      bin.parameters = some p →
      call_expr.ty.deref_any = .internalFunction rets →
      process_instruction (.call res (.dynamic call_expr) args) bin w ns cfg work blocks
        contract st = some (w', work', blocks', st') →
      ∃ base, Event.instr st.insertBlock
        (.dynCall (expression call_expr w.vars) (base ++ [p])) ∈ st'.events) ∧
    (∀ {bin : Binary} {w : Work} {ns : Namespace} {cfg : ControlFlowGraph}
      {work : List Work} {blocks : Blocks} {contract : Contract} {st : EmitState}
      {res : List Nat} {fno : Nat} {args : List Expression}
      {w' : Work} {work' : List Work} {blocks' : Blocks} {st' : EmitState},
      process_instruction (.call res (.builtin fno) args) bin w ns cfg work blocks
        contract st = some (w', work', blocks', st') →
      ∃ L, Event.instr st.insertBlock
          (.builtinCallIns fno ((args.map fun a => expression a w.vars) ++ L))
          ∈ st'.events ∧
        (∀ a ∈ L, ∃ id, a = Value.alloca id) ∧
        (res.isEmpty = true → L = [])) :=
  ⟨fun hp h => c6static_lemma hp h, fun hp hderef h => c6dynamic_lemma hp hderef h,
   fun h => c6builtin_lemma h⟩

/-- A Binary context carrying the ambient accounts parameter `param 99`. -/
def c6bin : Binary := ⟨some (.param 99)⟩

def c6out : Work × List Work × Blocks × EmitState :=
  (process_instruction (.call [] (.builtin 0) [.numberLiteral (.uint 32) 3]) c6bin exW exNs
    exCfg [] [] exContract exSt).getD (exW, [], [], exSt)

/-- **C6** counterexample.  With the ambient parameter `param 99` present,
the lowering of a Builtin call passes exactly the lowered arguments
`[intConst 3]` to the runtime — the parameter is not appended, so no
argument list of the form `base ++ [param 99]` is passed, contradicting
the claim for Builtin calls. -/
theorem c6_counterexample :
    c6bin.parameters = some (.param 99) ∧
    Event.instr 0 (.builtinCallIns 0 [.intConst 3]) ∈ c6out.2.2.2.events ∧
    (∀ e ∈ c6out.2.2.2.events, ∀ args2, e = .instr 0 (.builtinCallIns 0 args2) →
      args2 = [.intConst 3]) ∧
    ∀ base : List Value, ([.intConst 3] : List Value) ≠ base ++ [.param 99] := by
  have hev : c6out.2.2.2.events = [
      Event.instr 0 (.builtinCallIns 0 [.intConst 3]),
      Event.instr 0 (.condBr (.icmpEq (.builtinRes 0 [.intConst 3]) (.intConst 0)) 1 2),
      Event.positionAt 2,
      Event.instr 2 (.ret (.builtinRes 0 [.intConst 3])),
      Event.positionAt 1] := rfl
  refine ⟨rfl, by rw [hev]; simp, ?_, ?_⟩
  · rw [hev]
    intro e he
    simp only [List.mem_cons, List.not_mem_nil, or_false] at he
    rcases he with rfl | rfl | rfl | rfl | rfl <;> intro args2 heq
    · simp only [Event.instr.injEq, IrIns.builtinCallIns.injEq, true_and] at heq
      exact heq.symm
    · simp only [Event.instr.injEq] at heq
      exact absurd heq.2 (by intro hcontra; cases hcontra)
    · cases heq
    · simp only [Event.instr.injEq] at heq
      exact absurd heq.1 (by omega)
    · cases heq
  · intro base heq
    cases base with
    | nil =>
      injection heq with h1 _
      exact Value.noConfusion h1
    | cons bh bt =>
      injection heq with h1 h2
      simp at h2

def c6sout : Work × List Work × Blocks × EmitState :=
  (process_instruction (.call [] (.static 0) [.numberLiteral (.uint 32) 3]) c6bin exW exNs
    exCfg [] [] exContract exSt).getD (exW, [], [], exSt)

def c6dout : Work × List Work × Blocks × EmitState :=
  (process_instruction (.call [] (.dynamic (.var (.internalFunction []) 0)) []) c6bin exW
    exNs exCfg [] [] exContract exSt).getD (exW, [], [], exSt)

/-- Witness for the amended C6: Static and Dynamic calls with the ambient
parameter `param 99` present, and the Builtin call of the
counterexample. -/
theorem c6_accounts_param_witness :
    (∃ base, Event.instr 0 (.internalCall 0 (base ++ [.param 99])) ∈ c6sout.2.2.2.events) ∧
    (∃ base, Event.instr 0
      (.dynCall (expression (.var (.internalFunction []) 0) exW.vars) (base ++ [.param 99]))
      ∈ c6dout.2.2.2.events) ∧
    (∃ L, Event.instr 0 (.builtinCallIns 0
        (([.numberLiteral (.uint 32) 3].map fun a => expression a exW.vars) ++ L))
        ∈ c6out.2.2.2.events ∧
      (∀ a ∈ L, ∃ id, a = Value.alloca id) ∧
      (([] : List Nat).isEmpty = true → L = [])) :=
  ⟨c6_accounts_param.1 rfl
    (show process_instruction (.call [] (.static 0) [.numberLiteral (.uint 32) 3]) c6bin exW
        exNs exCfg [] [] exContract exSt
        = some (c6sout.1, c6sout.2.1, c6sout.2.2.1, c6sout.2.2.2) from by rfl),
   c6_accounts_param.2.1 rfl (show (Expression.var (.internalFunction []) 0).ty.deref_any
        = .internalFunction [] from rfl)
    (show process_instruction (.call [] (.dynamic (.var (.internalFunction []) 0)) []) c6bin
        exW exNs exCfg [] [] exContract exSt
        = some (c6dout.1, c6dout.2.1, c6dout.2.2.1, c6dout.2.2.2) from by rfl),
   c6_accounts_param.2.2
    (show process_instruction (.call [] (.builtin 0) [.numberLiteral (.uint 32) 3]) c6bin exW
        exNs exCfg [] [] exContract exSt
        = some (c6out.1, c6out.2.1, c6out.2.2.1, c6out.2.2.2) from by rfl)⟩

/-!  ## C3 — non-Success return codes of internal calls propagate  -/

theorem blockIns_nil_of_all (evs : List Event) (B bb : Nat) (hne : B ≠ bb)
    (h : ∀ e ∈ evs, ∃ ins, e = Event.instr B ins) : blockIns evs bb = [] := by
  induction evs with
  | nil => rfl
  | cons e rest ih =>
    obtain ⟨ins, hi⟩ := h e (by simp)
    subst hi
    have hr := ih fun e he => h e (by simp [he])
    simp [blockIns, hne] at hr ⊢
    exact hr

theorem c3sem_lemma (retv : Value) (sb bb : Nat) (hev : ∀ o, evalV o retv = o retv) :
    ∀ (o : Value → Option Nat) (c : Nat), o retv = some c →
      condBrTarget o (.icmpEq retv (return_values .success)) sb bb
        = some (if c = retCodeInt .success then sb else bb) := by
  intro o c hc
  have h1 : evalV o (.icmpEq retv (return_values .success))
      = (evalV o retv).bind fun x => some (if x = 0 then 1 else 0) := rfl
  unfold condBrTarget
  rw [h1, hev, hc]
  simp only [Option.some_bind, retCodeInt]
  by_cases hc0 : c = 0 <;> simp [hc0]

theorem c3static_lemma {bin : Binary} {w : Work} {ns : Namespace}
    {cfg : ControlFlowGraph} {work : List Work} {blocks : Blocks} {contract : Contract}
    {st : EmitState} {res : List Nat} {cfg_no : Nat} {args : List Expression}
    {w' : Work} {work' : List Work} {blocks' : Blocks} {st' : EmitState}
    (hwf : st.Wf)
    (h : process_instruction (.call res (.static cfg_no) args) bin w ns cfg work blocks
        contract st = some (w', work', blocks', st')) :
    ∃ retv sb bb,
      Event.instr st.insertBlock (.condBr (.icmpEq retv (return_values .success)) sb bb)
        ∈ st'.events ∧
      blockIns st'.events bb = [.ret retv] ∧
      st'.insertBlock = sb ∧
      (∀ o, evalV o retv = o retv) ∧
      (∀ o c, o retv = some c →
        condBrTarget o (.icmpEq retv (return_values .success)) sb bb
          = some (if c = retCodeInt .success then sb else bb)) := by
  simp only [process_instruction, Option.bind_eq_bind] at h
  rw [Option.bind_eq_some] at h
  obtain ⟨f, hf, h⟩ := h
  cases hres : res.isEmpty with
  | true =>
    simp only [hres, ite_true, appendBlock, positionAtEnd, emitIns, Option.some.injEq,
      Prod.mk.injEq] at h
    obtain ⟨hw, hwork, hblocks, hst⟩ := h
    subst hst
    refine ⟨.callInternal cfg_no (match bin.parameters with
        | some p => (args.map fun a => expression a w.vars) ++ [p]
        | none => args.map fun a => expression a w.vars),
      st.nextId, st.nextId + 1, by simp, ?_, rfl, fun o => rfl, c3sem_lemma _ _ _ fun o => rfl⟩
    have h0 : blockIns st.events (st.nextId + 1) =
        [] := blockIns_nil_of_lt _ _ fun e he => by have := hwf.1 e he; omega
    have hne1 : st.insertBlock ≠ st.nextId + 1 := by have := hwf.2; omega
    simp only [blockIns_append, h0, List.nil_append]
    simp [blockIns, hne1]
  | false =>
    obtain ⟨L, st2, heq, hall, hev2, hib2, hle2⟩ :=
      allocRets_spec f.returns (args.map fun a => expression a w.vars) st
    simp only [hres, Bool.false_eq_true, ite_false, heq, appendBlock, positionAtEnd,
      emitIns, Option.bind_eq_bind] at h
    rw [Option.bind_eq_some] at h
    obtain ⟨vs, hbr, h⟩ := h
    obtain ⟨hib3, hni3, evs, hev3, hall3⟩ :=
      bindReturns_events f.returns true _ args.length 0 res w.vars _ vs.1 vs.2 hbr
    simp only [Option.some.injEq, Prod.mk.injEq] at h
    obtain ⟨hw, hwork, hblocks, hst⟩ := h
    subst hst
    refine ⟨.callInternal cfg_no (match bin.parameters with
        | some p => ((args.map fun a => expression a w.vars) ++ L) ++ [p]
        | none => (args.map fun a => expression a w.vars) ++ L),
      st2.nextId, st2.nextId + 1, ?_, ?_, by rw [hib3], fun o => rfl,
      c3sem_lemma _ _ _ fun o => rfl⟩
    · rw [hev3]
      simp only [hev2, hib2]
      simp
    · rw [hev3]
      simp only [hev2, hib2]
      have h0 : blockIns st.events (st2.nextId + 1) = [] :=
        blockIns_nil_of_lt _ _ fun e he => by have := hwf.1 e he; omega
      have hevs : blockIns evs (st2.nextId + 1) = [] := by
        refine blockIns_nil_of_all evs st2.nextId _ (by omega) ?_
        intro e he
        obtain ⟨ins, hi⟩ := hall3 e he
        exact ⟨ins, hi⟩
      have hne1 : st.insertBlock ≠ st2.nextId + 1 := by have := hwf.2; omega
      simp only [blockIns_append, h0, hevs, List.nil_append, List.append_nil]
      simp [blockIns, hne1]

theorem c3builtin_lemma {bin : Binary} {w : Work} {ns : Namespace}
    {cfg : ControlFlowGraph} {work : List Work} {blocks : Blocks} {contract : Contract}
    {st : EmitState} {res : List Nat} {fno : Nat} {args : List Expression}
    {w' : Work} {work' : List Work} {blocks' : Blocks} {st' : EmitState}
    (hwf : st.Wf)
    (h : process_instruction (.call res (.builtin fno) args) bin w ns cfg work blocks
        contract st = some (w', work', blocks', st')) :
    ∃ retv sb bb,
      Event.instr st.insertBlock (.condBr (.icmpEq retv (return_values .success)) sb bb)
        ∈ st'.events ∧
      blockIns st'.events bb = [.ret retv] ∧
      st'.insertBlock = sb ∧
      (∀ o, evalV o retv = o retv) ∧
      (∀ o c, o retv = some c →
        condBrTarget o (.icmpEq retv (return_values .success)) sb bb
          = some (if c = retCodeInt .success then sb else bb)) := by
  simp only [process_instruction, Option.bind_eq_bind] at h
  rw [Option.bind_eq_some] at h
  obtain ⟨callee, hcallee, h⟩ := h
  cases hres : res.isEmpty with
  | true =>
    simp only [hres, ite_true, appendBlock, positionAtEnd, emitIns, Option.some.injEq,
      Prod.mk.injEq] at h
    obtain ⟨hw, hwork, hblocks, hst⟩ := h
    subst hst
    refine ⟨.builtinRes fno (args.map fun a => expression a w.vars),
      st.nextId, st.nextId + 1, by simp, ?_, rfl, fun o => rfl,
      c3sem_lemma _ _ _ fun o => rfl⟩
    have h0 : blockIns st.events (st.nextId + 1) = [] :=
      blockIns_nil_of_lt _ _ fun e he => by have := hwf.1 e he; omega
    have hne1 : st.insertBlock ≠ st.nextId + 1 := by have := hwf.2; omega
    simp only [blockIns_append, h0, List.nil_append]
    simp [blockIns, hne1]
  | false =>
    obtain ⟨L, st2, heq, hall, hev2, hib2, hle2⟩ :=
      allocRets_spec callee.returns (args.map fun a => expression a w.vars) st
    simp only [hres, Bool.false_eq_true, ite_false, heq, appendBlock, positionAtEnd,
      emitIns, Option.bind_eq_bind] at h
    rw [Option.bind_eq_some] at h
    obtain ⟨vs, hbr, h⟩ := h
    obtain ⟨hib3, hni3, evs, hev3, hall3⟩ :=
      bindReturns_events callee.returns true _ args.length 0 res w.vars _ vs.1 vs.2 hbr
    simp only [Option.some.injEq, Prod.mk.injEq] at h
    obtain ⟨hw, hwork, hblocks, hst⟩ := h
    subst hst
    refine ⟨.builtinRes fno ((args.map fun a => expression a w.vars) ++ L),
      st2.nextId, st2.nextId + 1, ?_, ?_, by rw [hib3], fun o => rfl,
      c3sem_lemma _ _ _ fun o => rfl⟩
    · rw [hev3]
      simp only [hev2, hib2]
      simp
    · rw [hev3]
      simp only [hev2, hib2]
      have h0 : blockIns st.events (st2.nextId + 1) = [] :=
        blockIns_nil_of_lt _ _ fun e he => by have := hwf.1 e he; omega
      have hevs : blockIns evs (st2.nextId + 1) = [] := by
        refine blockIns_nil_of_all evs st2.nextId _ (by omega) ?_
        intro e he
        obtain ⟨ins, hi⟩ := hall3 e he
        exact ⟨ins, hi⟩
      have hne1 : st.insertBlock ≠ st2.nextId + 1 := by have := hwf.2; omega
      simp only [blockIns_append, h0, hevs, List.nil_append, List.append_nil]
      simp [blockIns, hne1]

theorem c3dynamic_lemma {bin : Binary} {w : Work} {ns : Namespace}
    {cfg : ControlFlowGraph} {work : List Work} {blocks : Blocks} {contract : Contract}
    {st : EmitState} {res : List Nat} {call_expr : Expression} {args : List Expression}
    {rets : List Ty} {w' : Work} {work' : List Work} {blocks' : Blocks} {st' : EmitState}
    (hwf : st.Wf) (hderef : call_expr.ty.deref_any = .internalFunction rets)
    (h : process_instruction (.call res (.dynamic call_expr) args) bin w ns cfg work blocks
        contract st = some (w', work', blocks', st')) :
    ∃ retv sb bb,
      Event.instr st.insertBlock (.condBr (.icmpEq retv (return_values .success)) sb bb)
        ∈ st'.events ∧
      blockIns st'.events bb = [.ret retv] ∧
      st'.insertBlock = sb ∧
      (∀ o, evalV o retv = o retv) ∧
      (∀ o c, o retv = some c →
        condBrTarget o (.icmpEq retv (return_values .success)) sb bb
          = some (if c = retCodeInt .success then sb else bb)) := by
  simp only [process_instruction, hderef, Option.bind_eq_bind, Option.some_bind] at h
  cases hres : res.isEmpty with
  | true =>
    simp only [hres, ite_true, appendBlock, positionAtEnd, emitIns, Option.some.injEq,
      Prod.mk.injEq] at h
    obtain ⟨hw, hwork, hblocks, hst⟩ := h
    subst hst
    refine ⟨.callDyn (expression call_expr w.vars) (match bin.parameters with
        | some p => (args.map fun a => expression a w.vars) ++ [p]
        | none => args.map fun a => expression a w.vars),
      st.nextId, st.nextId + 1, by simp, ?_, rfl, fun o => rfl,
      c3sem_lemma _ _ _ fun o => rfl⟩
    have h0 : blockIns st.events (st.nextId + 1) = [] :=
      blockIns_nil_of_lt _ _ fun e he => by have := hwf.1 e he; omega
    have hne1 : st.insertBlock ≠ st.nextId + 1 := by have := hwf.2; omega
    simp only [blockIns_append, h0, List.nil_append]
    simp [blockIns, hne1]
  | false =>
    obtain ⟨L, st2, heq, hall, hev2, hib2, hle2⟩ :=
      allocRets_spec rets (args.map fun a => expression a w.vars) st
    simp only [hres, Bool.false_eq_true, ite_false, heq, appendBlock, positionAtEnd,
      emitIns, Option.bind_eq_bind] at h
    rw [Option.bind_eq_some] at h
    obtain ⟨vs, hbr, h⟩ := h
    obtain ⟨hib3, hni3, evs, hev3, hall3⟩ :=
      bindReturns_events rets false _ args.length 0 res w.vars _ vs.1 vs.2 hbr
    simp only [Option.some.injEq, Prod.mk.injEq] at h
    obtain ⟨hw, hwork, hblocks, hst⟩ := h
    subst hst
    refine ⟨.callDyn (expression call_expr w.vars) (match bin.parameters with
        | some p => ((args.map fun a => expression a w.vars) ++ L) ++ [p]
        | none => (args.map fun a => expression a w.vars) ++ L),
      st2.nextId, st2.nextId + 1, ?_, ?_, by rw [hib3], fun o => rfl,
      c3sem_lemma _ _ _ fun o => rfl⟩
    · rw [hev3]
      simp only [hev2, hib2]
      simp
    · rw [hev3]
      simp only [hev2, hib2]
      have h0 : blockIns st.events (st2.nextId + 1) = [] :=
        blockIns_nil_of_lt _ _ fun e he => by have := hwf.1 e he; omega
      have hevs : blockIns evs (st2.nextId + 1) = [] := by
        refine blockIns_nil_of_all evs st2.nextId _ (by omega) ?_
        intro e he
        obtain ⟨ins, hi⟩ := hall3 e he
        exact ⟨ins, hi⟩
      have hne1 : st.insertBlock ≠ st2.nextId + 1 := by have := hwf.2; omega
      simp only [blockIns_append, h0, hevs, List.nil_append, List.append_nil]
      simp [blockIns, hne1]

/-- **C3** (confirmed).  For every internal `Call` — Static, Builtin or
Dynamic — the lowering compares the callee's return code against
`Success` and branches: the bail block contains exactly `ret` of the raw
return value, so a non-Success code `c` makes the enclosing function
return that exact code with no further instruction of the calling block
executed; on `Success` the insertion point continues in the success block
where the result binding is emitted. -/
theorem c3_failure_propagation :
    (∀ {bin : Binary} {w : Work} {ns : Namespace} {cfg : ControlFlowGraph}
      {work : List Work} {blocks : Blocks} {contract : Contract} {st : EmitState}
      {res : List Nat} {cfg_no : Nat} {args : List Expression}
      {w' : Work} {work' : List Work} {blocks' : Blocks} {st' : EmitState},
      st.Wf →
      process_instruction (.call res (.static cfg_no) args) bin w ns cfg work blocks
        contract st = some (w', work', blocks', st') →
      ∃ retv sb bb,
        Event.instr st.insertBlock (.condBr (.icmpEq retv (return_values .success)) sb bb)
          ∈ st'.events ∧
        blockIns st'.events bb = [.ret retv] ∧
        st'.insertBlock = sb ∧
        (∀ o, evalV o retv = o retv) ∧
        (∀ o c, o retv = some c →
          condBrTarget o (.icmpEq retv (return_values .success)) sb bb
            = some (if c = retCodeInt .success then sb else bb))) ∧
    (∀ {bin : Binary} {w : Work} {ns : Namespace} {cfg : ControlFlowGraph}
      {work : List Work} {blocks : Blocks} {contract : Contract} {st : EmitState}
      {res : List Nat} {fno : Nat} {args : List Expression}
      {w' : Work} {work' : List Work} {blocks' : Blocks} {st' : EmitState},
      st.Wf →
      process_instruction (.call res (.builtin fno) args) bin w ns cfg work blocks
        contract st = some (w', work', blocks', st') →
      ∃ retv sb bb,
        Event.instr st.insertBlock (.condBr (.icmpEq retv (return_values .success)) sb bb)
          ∈ st'.events ∧
        blockIns st'.events bb = [.ret retv] ∧
        st'.insertBlock = sb ∧
        (∀ o, evalV o retv = o retv) ∧
        (∀ o c, o retv = some c →
          condBrTarget o (.icmpEq retv (return_values .success)) sb bb
            = some (if c = retCodeInt .success then sb else bb))) ∧
    (∀ {bin : Binary} {w : Work} {ns : Namespace} {cfg : ControlFlowGraph}
      {work : List Work} {blocks : Blocks} {contract : Contract} {st : EmitState}
      {res : List Nat} {call_expr : Expression} {args : List Expression} {rets : List Ty}
      {w' : Work} {work' : List Work} {blocks' : Blocks} {st' : EmitState},
      st.Wf →
      call_expr.ty.deref_any = .internalFunction rets →
      process_instruction (.call res (.dynamic call_expr) args) bin w ns cfg work blocks
        contract st = some (w', work', blocks', st') →
      ∃ retv sb bb,
        Event.instr st.insertBlock (.condBr (.icmpEq retv (return_values .success)) sb bb)
          ∈ st'.events ∧
        blockIns st'.events bb = [.ret retv] ∧
        st'.insertBlock = sb ∧
        (∀ o, evalV o retv = o retv) ∧
        (∀ o c, o retv = some c →
          condBrTarget o (.icmpEq retv (return_values .success)) sb bb
            = some (if c = retCodeInt .success then sb else bb))) :=
  ⟨fun hwf h => c3static_lemma hwf h, fun hwf h => c3builtin_lemma hwf h,
   fun hwf hderef h => c3dynamic_lemma hwf hderef h⟩

/-- Witness for C3 at the three concrete internal calls of the C6
scenario. -/
theorem c3_failure_propagation_witness :
    (∃ retv sb bb,
      Event.instr 0 (.condBr (.icmpEq retv (return_values .success)) sb bb)
        ∈ c6sout.2.2.2.events ∧
      blockIns c6sout.2.2.2.events bb = [.ret retv] ∧
      c6sout.2.2.2.insertBlock = sb ∧
      (∀ o, evalV o retv = o retv) ∧
      (∀ o c, o retv = some c →
        condBrTarget o (.icmpEq retv (return_values .success)) sb bb
          = some (if c = retCodeInt .success then sb else bb))) ∧
    (∃ retv sb bb,
      Event.instr 0 (.condBr (.icmpEq retv (return_values .success)) sb bb)
        ∈ c6out.2.2.2.events ∧
      blockIns c6out.2.2.2.events bb = [.ret retv] ∧
      c6out.2.2.2.insertBlock = sb ∧
      (∀ o, evalV o retv = o retv) ∧
      (∀ o c, o retv = some c →
        condBrTarget o (.icmpEq retv (return_values .success)) sb bb
          = some (if c = retCodeInt .success then sb else bb))) ∧
    (∃ retv sb bb,
      Event.instr 0 (.condBr (.icmpEq retv (return_values .success)) sb bb)
        ∈ c6dout.2.2.2.events ∧
      blockIns c6dout.2.2.2.events bb = [.ret retv] ∧
      c6dout.2.2.2.insertBlock = sb ∧
      (∀ o, evalV o retv = o retv) ∧
      (∀ o c, o retv = some c →
        condBrTarget o (.icmpEq retv (return_values .success)) sb bb
          = some (if c = retCodeInt .success then sb else bb))) :=
  ⟨c3_failure_propagation.1 ⟨fun e he => absurd he (by simp [exSt]), by simp [exSt]⟩
    (show process_instruction (.call [] (.static 0) [.numberLiteral (.uint 32) 3]) c6bin exW
        exNs exCfg [] [] exContract exSt
        = some (c6sout.1, c6sout.2.1, c6sout.2.2.1, c6sout.2.2.2) from by rfl),
   c3_failure_propagation.2.1 ⟨fun e he => absurd he (by simp [exSt]), by simp [exSt]⟩
    (show process_instruction (.call [] (.builtin 0) [.numberLiteral (.uint 32) 3]) c6bin exW
        exNs exCfg [] [] exContract exSt
        = some (c6out.1, c6out.2.1, c6out.2.2.1, c6out.2.2.2) from by rfl),
   c3_failure_propagation.2.2 ⟨fun e he => absurd he (by simp [exSt]), by simp [exSt]⟩
    (show (Expression.var (.internalFunction []) 0).ty.deref_any = .internalFunction []
      from rfl)
    (show process_instruction (.call [] (.dynamic (.var (.internalFunction []) 0)) []) c6bin
        exW exNs exCfg [] [] exContract exSt
        = some (c6dout.1, c6dout.2.1, c6dout.2.2.1, c6dout.2.2.2) from by rfl)⟩

/-!  ## C7 — result binding after internal calls  -/

theorem getRetSlot (parms0 : List Value) (a : Value) (rest : List Value) :
    ((parms0 ++ [a]) ++ rest).get? parms0.length = some a := by
  rw [List.get?_append (by simp)]
  rw [List.get?_append_right (by simp)]
  simp

theorem getRetSlot2 (parms0 : List Value) (a : Value) :
    (parms0 ++ [a]).get? parms0.length = some a := by
  rw [List.get?_append_right (by simp)]
  simp

theorem c7static_lemma {bin : Binary} {w : Work} {ns : Namespace}
    {cfg : ControlFlowGraph} {work : List Work} {blocks : Blocks} {contract : Contract}
    {st : EmitState} {cfg_no : Nat} {t : Ty} {r : Nat} {args : List Expression}
    {w' : Work} {work' : List Work} {blocks' : Blocks} {st' : EmitState}
    (hf : contract.cfg.get? cfg_no = some ⟨[t]⟩)
    (h : process_instruction (.call [r] (.static cfg_no) args) bin w ns cfg work blocks
        contract st = some (w', work', blocks', st')) :
    (((w.vars r).value.isPointerValue
        && !(t.is_reference_type || t.isExternalFunction)) = true →
      Event.instr st'.insertBlock (.store (w.vars r).value (.load (.alloca st.nextId)))
        ∈ st'.events ∧ w'.vars = w.vars) ∧
    (((w.vars r).value.isPointerValue
        && !(t.is_reference_type || t.isExternalFunction)) = false →
      w'.vars = updateVar w.vars r (.load (.alloca st.nextId))) := by
  simp only [process_instruction, hf, Option.bind_eq_bind, Option.some_bind,
    List.isEmpty_cons, Bool.false_eq_true, ite_false, allocRets, buildAlloca,
    appendBlock, positionAtEnd, emitIns] at h
  have hget : ∀ rest : List Value,
      (((args.map fun a => expression a w.vars) ++ [Value.alloca st.nextId]) ++ rest).get?
        (args.length + 0) = some (Value.alloca st.nextId) := by
    intro rest
    have := getRetSlot (args.map fun a => expression a w.vars) (Value.alloca st.nextId) rest
    simpa using this
  have hget2 : ((args.map fun a => expression a w.vars) ++ [Value.alloca st.nextId]).get?
      (args.length + 0) = some (Value.alloca st.nextId) := by
    have := getRetSlot2 (args.map fun a => expression a w.vars) (Value.alloca st.nextId)
    simpa using this
  cases hp : bin.parameters with
  | some p =>
    simp only [hp, bindReturns, hget, Option.bind_eq_bind, Option.some_bind,
      List.get?, Bool.true_and] at h
    cases hcond : ((w.vars r).value.isPointerValue
        && !(t.is_reference_type || t.isExternalFunction)) with
    | true =>
      rw [hcond] at h
      simp only [ite_true, bindReturns, Option.some_bind, Option.some.injEq,
        Prod.mk.injEq, emitIns] at h
      obtain ⟨hw, hwork, hblocks, hst⟩ := h
      subst hst
      refine ⟨fun _ => ⟨by simp, ?_⟩, fun hcontra => (by cases hcontra)⟩
      rw [← hw]
    | false =>
      rw [hcond] at h
      simp only [Bool.false_eq_true, ite_false, bindReturns, Option.some_bind,
        Option.some.injEq, Prod.mk.injEq] at h
      obtain ⟨hw, hwork, hblocks, hst⟩ := h
      refine ⟨fun hcontra => (by cases hcontra), fun _ => ?_⟩
      rw [← hw]
  | none =>
    simp only [hp, bindReturns, hget2, Option.bind_eq_bind, Option.some_bind,
      List.get?, Bool.true_and] at h
    cases hcond : ((w.vars r).value.isPointerValue
        && !(t.is_reference_type || t.isExternalFunction)) with
    | true =>
      rw [hcond] at h
      simp only [ite_true, bindReturns, Option.some_bind, Option.some.injEq,
        Prod.mk.injEq, emitIns] at h
      obtain ⟨hw, hwork, hblocks, hst⟩ := h
      subst hst
      refine ⟨fun _ => ⟨by simp, ?_⟩, fun hcontra => (by cases hcontra)⟩
      rw [← hw]
    | false =>
      rw [hcond] at h
      simp only [Bool.false_eq_true, ite_false, bindReturns, Option.some_bind,
        Option.some.injEq, Prod.mk.injEq] at h
      obtain ⟨hw, hwork, hblocks, hst⟩ := h
      refine ⟨fun hcontra => (by cases hcontra), fun _ => ?_⟩
      rw [← hw]

theorem c7builtin_lemma {bin : Binary} {w : Work} {ns : Namespace}
    {cfg : ControlFlowGraph} {work : List Work} {blocks : Blocks} {contract : Contract}
    {st : EmitState} {fno : Nat} {t : Ty} {r : Nat} {args : List Expression}
    {w' : Work} {work' : List Work} {blocks' : Blocks} {st' : EmitState}
    (hf : ns.functions.get? fno = some ⟨[t]⟩)
    (h : process_instruction (.call [r] (.builtin fno) args) bin w ns cfg work blocks
        contract st = some (w', work', blocks', st')) :
    (((w.vars r).value.isPointerValue
        && !(t.is_reference_type || t.isExternalFunction)) = true →
      Event.instr st'.insertBlock (.store (w.vars r).value (.load (.alloca st.nextId)))
        ∈ st'.events ∧ w'.vars = w.vars) ∧
    (((w.vars r).value.isPointerValue
        && !(t.is_reference_type || t.isExternalFunction)) = false →
      w'.vars = updateVar w.vars r (.load (.alloca st.nextId))) := by
  simp only [process_instruction, hf, Option.bind_eq_bind, Option.some_bind,
    List.isEmpty_cons, Bool.false_eq_true, ite_false, allocRets, buildAlloca,
    appendBlock, positionAtEnd, emitIns] at h
  have hget2 : ((args.map fun a => expression a w.vars) ++ [Value.alloca st.nextId]).get?
      (args.length + 0) = some (Value.alloca st.nextId) := by
    have := getRetSlot2 (args.map fun a => expression a w.vars) (Value.alloca st.nextId)
    simpa using this
  simp only [bindReturns, hget2, Option.bind_eq_bind, Option.some_bind, List.get?,
    Bool.true_and] at h
  cases hcond : ((w.vars r).value.isPointerValue
      && !(t.is_reference_type || t.isExternalFunction)) with
  | true =>
    rw [hcond] at h
    simp only [ite_true, bindReturns, Option.some_bind, Option.some.injEq,
      Prod.mk.injEq, emitIns] at h
    obtain ⟨hw, hwork, hblocks, hst⟩ := h
    subst hst
    refine ⟨fun _ => ⟨by simp, ?_⟩, fun hcontra => (by cases hcontra)⟩
    rw [← hw]
  | false =>
    rw [hcond] at h
    simp only [Bool.false_eq_true, ite_false, bindReturns, Option.some_bind,
      Option.some.injEq, Prod.mk.injEq] at h
    obtain ⟨hw, hwork, hblocks, hst⟩ := h
    refine ⟨fun hcontra => (by cases hcontra), fun _ => ?_⟩
    rw [← hw]

theorem c7dynamic_lemma {bin : Binary} {w : Work} {ns : Namespace}
    {cfg : ControlFlowGraph} {work : List Work} {blocks : Blocks} {contract : Contract}
    {st : EmitState} {call_expr : Expression} {t : Ty} {r : Nat} {args : List Expression}
    {w' : Work} {work' : List Work} {blocks' : Blocks} {st' : EmitState}
    (hderef : call_expr.ty.deref_any = .internalFunction [t])
    (h : process_instruction (.call [r] (.dynamic call_expr) args) bin w ns cfg work blocks
        contract st = some (w', work', blocks', st')) :
    (((w.vars r).value.isPointerValue && !t.is_reference_type) = true →
      Event.instr st'.insertBlock (.store (w.vars r).value (.load (.alloca st.nextId)))
        ∈ st'.events ∧ w'.vars = w.vars) ∧
    (((w.vars r).value.isPointerValue && !t.is_reference_type) = false →
      w'.vars = updateVar w.vars r (.load (.alloca st.nextId))) := by
  simp only [process_instruction, hderef, Option.bind_eq_bind, Option.some_bind,
    List.isEmpty_cons, Bool.false_eq_true, ite_false, allocRets, buildAlloca,
    appendBlock, positionAtEnd, emitIns] at h
  have hget : ∀ rest : List Value,
      (((args.map fun a => expression a w.vars) ++ [Value.alloca st.nextId]) ++ rest).get?
        (args.length + 0) = some (Value.alloca st.nextId) := by
    intro rest
    have := getRetSlot (args.map fun a => expression a w.vars) (Value.alloca st.nextId) rest
    simpa using this
  have hget2 : ((args.map fun a => expression a w.vars) ++ [Value.alloca st.nextId]).get?
      (args.length + 0) = some (Value.alloca st.nextId) := by
    have := getRetSlot2 (args.map fun a => expression a w.vars) (Value.alloca st.nextId)
    simpa using this
  have hsimpcond : (t.is_reference_type || (false && t.isExternalFunction))
      = t.is_reference_type := by
    simp
  cases hp : bin.parameters with
  | some p =>
    simp only [hp, bindReturns, hget, Option.bind_eq_bind, Option.some_bind,
      List.get?, hsimpcond] at h
    cases hcond : ((w.vars r).value.isPointerValue && !t.is_reference_type) with
    | true =>
      rw [hcond] at h
      simp only [ite_true, bindReturns, Option.some_bind, Option.some.injEq,
        Prod.mk.injEq, emitIns] at h
      obtain ⟨hw, hwork, hblocks, hst⟩ := h
      subst hst
      refine ⟨fun _ => ⟨by simp, ?_⟩, fun hcontra => (by cases hcontra)⟩
      rw [← hw]
    | false =>
      rw [hcond] at h
      simp only [Bool.false_eq_true, ite_false, bindReturns, Option.some_bind,
        Option.some.injEq, Prod.mk.injEq] at h
      obtain ⟨hw, hwork, hblocks, hst⟩ := h
      refine ⟨fun hcontra => (by cases hcontra), fun _ => ?_⟩
      rw [← hw]
  | none =>
    simp only [hp, bindReturns, hget2, Option.bind_eq_bind, Option.some_bind,
      List.get?, hsimpcond] at h
    cases hcond : ((w.vars r).value.isPointerValue && !t.is_reference_type) with
    | true =>
      rw [hcond] at h
      simp only [ite_true, bindReturns, Option.some_bind, Option.some.injEq,
        Prod.mk.injEq, emitIns] at h
      obtain ⟨hw, hwork, hblocks, hst⟩ := h
      subst hst
      refine ⟨fun _ => ⟨by simp, ?_⟩, fun hcontra => (by cases hcontra)⟩
      rw [← hw]
    | false =>
      rw [hcond] at h
      simp only [Bool.false_eq_true, ite_false, bindReturns, Option.some_bind,
        Option.some.injEq, Prod.mk.injEq] at h
      obtain ⟨hw, hwork, hblocks, hst⟩ := h
      refine ⟨fun hcontra => (by cases hcontra), fun _ => ?_⟩
      rw [← hw]

/-- **C7** (amended).  After a successful internal call with one return of
type `t` bound to destination variable `r`: for Static and Builtin calls
the loaded value is stored through the destination (leaving the binding
unchanged) exactly when the destination currently holds a pointer and `t`
is neither a reference type **nor an external function type**; for Dynamic
calls the external-function exclusion is absent, so the rule applies
whenever the destination holds a pointer and `t` is not a reference type.
The rule is therefore not uniform across the three call kinds: they differ
for external-function returns into pointer-valued destinations. -/
theorem c7_result_binding :
    (∀ {bin : Binary} {w : Work} {ns : Namespace} {cfg : ControlFlowGraph}
      {work : List Work} {blocks : Blocks} {contract : Contract} {st : EmitState}
      {cfg_no : Nat} {t : Ty} {r : Nat} {args : List Expression}
      {w' : Work} {work' : List Work} {blocks' : Blocks} {st' : EmitState},
      contract.cfg.get? cfg_no = some ⟨[t]⟩ →
      process_instruction (.call [r] (.static cfg_no) args) bin w ns cfg work blocks
        contract st = some (w', work', blocks', st') →
      (((w.vars r).value.isPointerValue
          && !(t.is_reference_type || t.isExternalFunction)) = true →
        Event.instr st'.insertBlock (.store (w.vars r).value (.load (.alloca st.nextId)))
          ∈ st'.events ∧ w'.vars = w.vars) ∧
      (((w.vars r).value.isPointerValue
          && !(t.is_reference_type || t.isExternalFunction)) = false →
        w'.vars = updateVar w.vars r (.load (.alloca st.nextId)))) ∧
    (∀ {bin : Binary} {w : Work} {ns : Namespace} {cfg : ControlFlowGraph}
      {work : List Work} {blocks : Blocks} {contract : Contract} {st : EmitState}
      {fno : Nat} {t : Ty} {r : Nat} {args : List Expression}
      {w' : Work} {work' : List Work} {blocks' : Blocks} {st' : EmitState},
      ns.functions.get? fno = some ⟨[t]⟩ →
      process_instruction (.call [r] (.builtin fno) args) bin w ns cfg work blocks
        contract st = some (w', work', blocks', st') →
      (((w.vars r).value.isPointerValue
          && !(t.is_reference_type || t.isExternalFunction)) = true →
        Event.instr st'.insertBlock (.store (w.vars r).value (.load (.alloca st.nextId)))
          ∈ st'.events ∧ w'.vars = w.vars) ∧
      (((w.vars r).value.isPointerValue
          && !(t.is_reference_type || t.isExternalFunction)) = false →
        w'.vars = updateVar w.vars r (.load (.alloca st.nextId)))) ∧
    (∀ {bin : Binary} {w : Work} {ns : Namespace} {cfg : ControlFlowGraph}
      {work : List Work} {blocks : Blocks} {contract : Contract} {st : EmitState}
      {call_expr : Expression} {t : Ty} {r : Nat} {args : List Expression}
      {w' : Work} {work' : List Work} {blocks' : Blocks} {st' : EmitState},
      call_expr.ty.deref_any = .internalFunction [t] →
      process_instruction (.call [r] (.dynamic call_expr) args) bin w ns cfg work blocks
        contract st = some (w', work', blocks', st') →
      (((w.vars r).value.isPointerValue && !t.is_reference_type) = true →
        Event.instr st'.insertBlock (.store (w.vars r).value (.load (.alloca st.nextId)))
          ∈ st'.events ∧ w'.vars = w.vars) ∧
      (((w.vars r).value.isPointerValue && !t.is_reference_type) = false →
        w'.vars = updateVar w.vars r (.load (.alloca st.nextId)))) :=
  ⟨fun hf h => c7static_lemma hf h, fun hf h => c7builtin_lemma hf h,
   fun hderef h => c7dynamic_lemma hderef h⟩

/-- Environment for the C7 scenarios: variable 5 holds a pointer
(`alloca 50`). -/
def c7env : Env :=
  fun n => if n = 5 then ⟨.externalFunction, .alloca 50⟩ else ⟨Ty.uint 32, .intConst 7⟩

def c7contract : Contract := ⟨[⟨[.externalFunction]⟩]⟩

def c7out : Work × List Work × Blocks × EmitState :=
  (process_instruction (.call [5] (.static 0) []) exBin ⟨0, c7env⟩ exNs exCfg [] []
    c7contract exSt).getD (exW, [], [], exSt)

/-- **C7** counterexample.  A Static call returning an external function —
a non-reference type — into the pointer-valued destination `alloca 50`
rebinds the destination to the loaded alloca (no store through the old
pointer is emitted), whereas the claim demands the store-through rule to
apply uniformly whenever the destination holds a pointer and the return
type is a non-reference value. -/
theorem c7_counterexample :
    Ty.externalFunction.is_reference_type = false ∧
    Value.isPointerValue (.alloca 50) = true ∧
    (c7out.1.vars 5).value = .load (.alloca 1) ∧
    (Value.load (.alloca 1) ≠ Value.alloca 50) ∧
    ∀ e ∈ c7out.2.2.2.events, ∀ (b : Nat) (v : Value),
      e = .instr b (.store (.alloca 50) v) → False := by
  have hev : c7out.2.2.2.events = [
      Event.instr 0 (.internalCall 0 [.alloca 1]),
      Event.instr 0 (.condBr (.icmpEq (.callInternal 0 [.alloca 1]) (.intConst 0)) 2 3),
      Event.positionAt 3,
      Event.instr 3 (.ret (.callInternal 0 [.alloca 1])),
      Event.positionAt 2] := rfl
  refine ⟨rfl, rfl, rfl, fun hcontra => Value.noConfusion hcontra, ?_⟩
  rw [hev]
  intro e he b v heq
  simp only [List.mem_cons, List.not_mem_nil, or_false] at he
  rcases he with rfl | rfl | rfl | rfl | rfl
  · simp only [Event.instr.injEq] at heq
    exact absurd heq.2 (by intro hcontra; cases hcontra)
  · simp only [Event.instr.injEq] at heq
    exact absurd heq.2 (by intro hcontra; cases hcontra)
  · cases heq
  · simp only [Event.instr.injEq] at heq
    exact absurd heq.2 (by intro hcontra; cases hcontra)
  · cases heq

def c7denv : Env :=
  fun n => if n = 5 then ⟨Ty.uint 32, .alloca 50⟩ else ⟨Ty.internalFunction [.uint 32],
    .intConst 7⟩

def c7dout : Work × List Work × Blocks × EmitState :=
  (process_instruction (.call [5] (.dynamic (.var (.internalFunction [.uint 32]) 0)) [])
    exBin ⟨0, c7denv⟩ exNs exCfg [] [] exContract exSt).getD (exW, [], [], exSt)

def c7bout : Work × List Work × Blocks × EmitState :=
  (process_instruction (.call [5] (.builtin 0) []) exBin ⟨0, c7env⟩
    ⟨.substrate, [⟨[.externalFunction]⟩]⟩ exCfg [] [] exContract exSt).getD
    (exW, [], [], exSt)

/-- Witness for the amended C7: the Static and Builtin parts at an
external-function return (rebind branch), and the Dynamic part at a `u32`
return into a pointer destination (store-through branch). -/
theorem c7_result_binding_witness :
    ((((c7env 5).value.isPointerValue
        && !(Ty.externalFunction.is_reference_type
          || Ty.externalFunction.isExternalFunction)) = true →
      Event.instr c7out.2.2.2.insertBlock
        (.store ((c7env 5).value) (.load (.alloca 1))) ∈ c7out.2.2.2.events ∧
        c7out.1.vars = c7env) ∧
    (((c7env 5).value.isPointerValue
        && !(Ty.externalFunction.is_reference_type
          || Ty.externalFunction.isExternalFunction)) = false →
      c7out.1.vars = updateVar c7env 5 (.load (.alloca 1)))) ∧
    ((((c7env 5).value.isPointerValue
        && !(Ty.externalFunction.is_reference_type
          || Ty.externalFunction.isExternalFunction)) = true →
      Event.instr c7bout.2.2.2.insertBlock
        (.store ((c7env 5).value) (.load (.alloca 1))) ∈ c7bout.2.2.2.events ∧
        c7bout.1.vars = c7env) ∧
    (((c7env 5).value.isPointerValue
        && !(Ty.externalFunction.is_reference_type
          || Ty.externalFunction.isExternalFunction)) = false →
      c7bout.1.vars = updateVar c7env 5 (.load (.alloca 1)))) ∧
    ((((c7denv 5).value.isPointerValue && !(Ty.uint 32).is_reference_type) = true →
      Event.instr c7dout.2.2.2.insertBlock
        (.store ((c7denv 5).value) (.load (.alloca 1))) ∈ c7dout.2.2.2.events ∧
        c7dout.1.vars = c7denv) ∧
    (((c7denv 5).value.isPointerValue && !(Ty.uint 32).is_reference_type) = false →
      c7dout.1.vars = updateVar c7denv 5 (.load (.alloca 1)))) :=
  ⟨c7_result_binding.1 (show c7contract.cfg.get? 0 = some ⟨[.externalFunction]⟩ from rfl)
    (show process_instruction (.call [5] (.static 0) []) exBin ⟨0, c7env⟩ exNs exCfg [] []
        c7contract exSt = some (c7out.1, c7out.2.1, c7out.2.2.1, c7out.2.2.2) from by rfl),
   c7_result_binding.2.1
    (show (Namespace.mk .substrate [⟨[.externalFunction]⟩]).functions.get? 0
      = some ⟨[.externalFunction]⟩ from rfl)
    (show process_instruction (.call [5] (.builtin 0) []) exBin ⟨0, c7env⟩
        ⟨.substrate, [⟨[.externalFunction]⟩]⟩ exCfg [] [] exContract exSt
        = some (c7bout.1, c7bout.2.1, c7bout.2.2.1, c7bout.2.2.2) from by rfl),
   c7_result_binding.2.2
    (show (Expression.var (.internalFunction [.uint 32]) 0).ty.deref_any
      = .internalFunction [.uint 32] from rfl)
    (show process_instruction (.call [5] (.dynamic (.var (.internalFunction [.uint 32]) 0))
        []) exBin ⟨0, c7denv⟩ exNs exCfg [] [] exContract exSt
        = some (c7dout.1, c7dout.2.1, c7dout.2.2.1, c7dout.2.2.2) from by rfl)⟩

end Solang
